import Mathlib

/-!
# Quash job control: a shallow embedding of `execute.c` and `jobs.c`

The shell process is modelled as a state record (`Shell`) holding the globals of
`execute.c` (`job_q`, `pid_queue`, `job_number`, `booted`) together with the
ordered trace of system calls and output the process has issued.  Every C
function becomes a function `Shell → Except Err Shell`; an `Except.error` is a
path on which the C function does not return to its caller (a fatal deque
underflow, a read past the end of the descriptor array, a `NULL` handed to
`setenv` or `fileno`, a successful `execvp`, or the `exit(0)` of a forked child).

The operating system is an explicit environment (`Env`): the value each
`fork()` returns, the value `waitpid(pid, &status, WNOHANG)` returns, the
string `get_command_string()` returns, the value `getcwd(NULL, 100)` returns,
whether `fopen` opens a file and whether `execvp` succeeds.

Conventions.
* `int job_number` is a 32-bit signed integer; `job_number + 1` wraps (`wrap32`).
* Queue lengths and the stage index `i` are kept unbounded: a deque of `2^31`
  records, or a descriptor array of `2^31` stages, does not fit the heap
  arrays the shell allocates.
-/

namespace Quash

/-! ## Data model -/

/-- Process handle: the C `pid_t`. -/
abbrev pid_t := Int

/-- Ways in which a C function of the shell fails to return to its caller. -/
inductive Fault where
  | underflow
  | out_of_bounds
  deriving DecidableEq, Repr

/-- Job record of `jobs.c`: `struct Job`. -/
structure Job where
  job_id : Int
  pid_queue : List pid_t
  pid : pid_t
  cmd : String
  deriving DecidableEq, Repr

/-- Observable actions of the shell process, in the order they are issued. -/
inductive Event where
  | waitpid (pid : pid_t) (wnohang : Bool)
  | fork (child : pid_t)
  | pipe (slot : Int)
  | close (slot : Int) (fd_end : Nat)
  | dup2 (slot : Int) (fd_end : Nat) (target : Nat)
  | fopen_dup2 (file : String) (mode : String) (target : Nat)
  | printf (text : String)
  | printf_job (job_id : Int) (pid : pid_t) (cmd : String)
  | fflush
  | execvp (args : List String)
  | perror (msg : String)
  | setenv (var : String) (val : String)
  | chdir (dir : String)
  | getcwd_printf
  | kill (pid : pid_t) (sig : Int)
  | end_main_loop
  deriving DecidableEq, Repr

/-- Globals of `execute.c` plus the trace of actions issued so far. -/
structure Shell where
  job_q : List Job
  pid_queue : List pid_t
  job_number : Int
  booted : Bool
  trace : List Event
  deriving DecidableEq, Repr

/-- Non-returning outcomes: a fault, `exit(0)` in a forked child, a successful
`execvp` (the process image is replaced), or the process killed by a `NULL`
pointer handed to the C library (`setenv("PWD", NULL, 1)`, `fileno(NULL)`). -/
inductive Err where
  | fault (f : Fault)
  | exited (code : Int) (final : Shell)
  | replaced (final : Shell)
  | crashed (final : Shell)
  deriving DecidableEq, Repr

/-- Modelled from the spec: the `CommandType` enumeration of the absent
`command.h` (variants Generic, Echo, Export, Cd, Kill, Pwd, Jobs, Exit,
EndOfCommands). -/
inductive CommandType where
  | GENERIC | ECHO | EXPORT | CD | KILL | PWD | JOBS | EXIT | EOC
  deriving DecidableEq, Repr

/-- Modelled from the spec: argument list of a generic program. -/
structure GenericCommand where
  args : List String
  deriving DecidableEq, Repr

/-- Modelled from the spec: argument list of `echo`. -/
structure EchoCommand where
  args : List String
  deriving DecidableEq, Repr

/-- Modelled from the spec: environment variable name and value. -/
structure ExportCommand where
  env_var : String
  val : String
  deriving DecidableEq, Repr

/-- Modelled from the spec: target directory (`none` is the C `NULL`). -/
structure CDCommand where
  dir : Option String
  deriving DecidableEq, Repr

/-- Modelled from the spec: signal number and target job id. -/
structure KillCommand where
  sig : Int
  job : Int
  deriving DecidableEq, Repr

/-- Modelled from the spec: the tagged union `Command` of the absent `command.h`. -/
inductive Command where
  | generic (c : GenericCommand)
  | echo (c : EchoCommand)
  | exportc (c : ExportCommand)
  | cd (c : CDCommand)
  | kill (c : KillCommand)
  | pwd
  | jobs
  | exit
  | eoc
  deriving DecidableEq, Repr

/-- Modelled from the spec: the flags bitset of a command descriptor; each
field is the truth value of `holder.flags & FLAG` for the flag constant of the
absent `command.h`. -/
structure Flags where
  PIPE_IN : Bool
  PIPE_OUT : Bool
  REDIRECT_IN : Bool
  REDIRECT_OUT : Bool
  REDIRECT_APPEND : Bool
  BACKGROUND : Bool
  deriving DecidableEq, Repr

/-- Modelled from the spec: `CommandHolder` of the absent `command.h`. -/
structure CommandHolder where
  flags : Flags
  cmd : Command
  redirect_in : String
  redirect_out : String
  deriving DecidableEq, Repr

/-- Modelled from the spec: `get_command_type` of the absent `command.c`. -/
def get_command_type : Command → CommandType
  | .generic _ => .GENERIC
  | .echo _ => .ECHO
  | .exportc _ => .EXPORT
  | .cd _ => .CD
  | .kill _ => .KILL
  | .pwd => .PWD
  | .jobs => .JOBS
  | .exit => .EXIT
  | .eoc => .EOC

/-- Modelled from the spec: `get_command_holder_type` of the absent `command.c`. -/
def get_command_holder_type (holder : CommandHolder) : CommandType :=
  get_command_type holder.cmd

/-- The operating system as seen by one call of `run_script`. -/
structure Env where
  /-- value returned by the `k`-th `fork()` of the call -/
  fork : Nat → pid_t
  /-- value returned by `waitpid(pid, &status, WNOHANG)` -/
  waitpid_nohang : pid_t → Int
  /-- value returned by `get_command_string()` -/
  command_string : String
  /-- whether `execvp` replaces the process image -/
  execvp_ok : Bool
  /-- value returned by `getcwd(NULL, 100)` in the parent at the `k`-th stage of
  the call; `none` is `NULL` (the path needs 100 bytes or more) -/
  getcwd : Nat → Option String
  /-- whether `fopen(file, mode)` returns a stream rather than `NULL` -/
  fopen_ok : String → String → Bool

/-! ## Deque abstraction (`deque.h`) -/

/-- Modelled from the spec: `new_<deque>` of the absent `deque.h` (an empty queue). -/
def new_queue {α : Type} : List α := []

/-- Modelled from the spec: `push_back_<deque>` of the absent `deque.h`. -/
def push_back {α : Type} (q : List α) (x : α) : List α := q ++ [x]

/-- Modelled from the spec: `pop_front_<deque>` of the absent `deque.h`; popping
an empty queue is fatal. -/
def pop_front {α : Type} : List α → Except Err (α × List α)
  | [] => .error (.fault .underflow)
  | x :: q => .ok (x, q)

/-- Modelled from the spec: `peek_front_<deque>` of the absent `deque.h`; peeking
an empty queue is fatal. -/
def peek_front {α : Type} : List α → Except Err α
  | [] => .error (.fault .underflow)
  | x :: _ => .ok x

/-- Modelled from the spec: `peek_back_<deque>` of the absent `deque.h`; peeking
an empty queue is fatal. -/
def peek_back {α : Type} (q : List α) : Except Err α :=
  match q.getLast? with
  | none => .error (.fault .underflow)
  | some x => .ok x

/-- Modelled from the spec: `length_<deque>` of the absent `deque.h`. -/
def length_queue {α : Type} (q : List α) : Nat := q.length

/-- Modelled from the spec: `is_empty_<deque>` of the absent `deque.h`. -/
def is_empty_queue {α : Type} (q : List α) : Bool := q.isEmpty

/-! ## Output helpers -/

/-- Append one action to the trace. -/
def emit (s : Shell) (e : Event) : Shell :=
  { s with trace := s.trace ++ [e] }

/-- Source `print_job`: one formatted line, then a flush. -/
def print_job (job_id : Int) (pid : pid_t) (cmd : String) (s : Shell) : Shell :=
  emit (emit s (.printf_job job_id pid cmd)) .fflush

/-- Source `print_job_bg_start`. -/
def print_job_bg_start (job_id : Int) (pid : pid_t) (cmd : String) (s : Shell) : Shell :=
  print_job job_id pid cmd (emit s (.printf "Background job started: "))

/-- Source `print_job_bg_complete`. -/
def print_job_bg_complete (job_id : Int) (pid : pid_t) (cmd : String) (s : Shell) : Shell :=
  print_job job_id pid cmd (emit s (.printf "Completed: \t"))

/-! ## Job reaper -/

/-- Inner loop of `check_jobs_bg_status` (lines 85-94): `n` iterations of
pop-front, non-blocking wait, push-back when the wait returns 0. -/
def check_jobs_bg_status_processes (w : pid_t → Int) :
    Nat → Job → Shell → Except Err (Job × Shell)
  | 0, selected_job, s => .ok (selected_job, s)
  | n + 1, selected_job, s => do
    let (current_process, q) ← pop_front selected_job.pid_queue
    let s1 := emit s (.waitpid current_process true)
    if w current_process = 0 then
      check_jobs_bg_status_processes w n
        { selected_job with pid_queue := push_back q current_process } s1
    else
      check_jobs_bg_status_processes w n { selected_job with pid_queue := q } s1

/-- Outer loop of `check_jobs_bg_status` (lines 75-102): `n` iterations over
the job queue. -/
def check_jobs_bg_status_jobs (w : pid_t → Int) : Nat → Shell → Except Err Shell
  | 0, s => .ok s
  | n + 1, s => do
    let (selected_job, q) ← pop_front s.job_q
    let s1 := { s with job_q := q }
    let num_of_processes := length_queue selected_job.pid_queue
    let front_process ← peek_front selected_job.pid_queue
    let (selected_job, s2) ←
      check_jobs_bg_status_processes w num_of_processes selected_job s1
    if is_empty_queue selected_job.pid_queue then
      check_jobs_bg_status_jobs w n
        (print_job_bg_complete selected_job.job_id front_process selected_job.cmd s2)
    else
      check_jobs_bg_status_jobs w n
        { s2 with job_q := push_back s2.job_q selected_job }

/-- Source `check_jobs_bg_status`. -/
def check_jobs_bg_status (w : pid_t → Int) (s : Shell) : Except Err Shell :=
  check_jobs_bg_status_jobs w (length_queue s.job_q) s

/-! ## Builtins -/

/-- Source `run_generic`: `execvp`; the `perror` is reached only when `execvp`
fails, otherwise the process image is replaced. -/
def run_generic (execvp_ok : Bool) (cmd : GenericCommand) (s : Shell) : Except Err Shell :=
  let s1 := emit s (.execvp cmd.args)
  if execvp_ok then .error (.replaced s1)
  else .ok (emit s1 (.perror "ERROR: Failed to execute program"))

/-- Source `run_echo`. -/
def run_echo (cmd : EchoCommand) (s : Shell) : Shell :=
  emit (emit (cmd.args.foldl (fun acc str => emit acc (.printf (str ++ " "))) s)
    (.printf "\n")) .fflush

/-- Source `run_export`. -/
def run_export (cmd : ExportCommand) (s : Shell) : Shell :=
  emit s (.setenv cmd.env_var cmd.val)

/-- Source `run_cd`; `new_pwd` is the value `getcwd(NULL, 100)` returns after
the `chdir`. The result is handed to `setenv` unchecked: a `NULL` kills the
process. -/
def run_cd (new_pwd : Option String) (cmd : CDCommand) (s : Shell) : Except Err Shell :=
  match cmd.dir with
  | none => .ok (emit s (.perror "ERROR: Failed to resolve path"))
  | some dir =>
    let s1 := emit s (.chdir dir)
    match new_pwd with
    | none => .error (.crashed s1)
    | some pwd => .ok (emit s1 (.setenv "PWD" pwd))

/-- Source `run_kill`: the two locals are read and the whole loop over the job
queue is inside a comment, so the function has no effect. -/
def run_kill (cmd : KillCommand) (s : Shell) : Shell :=
  let _signal := cmd.sig
  let _job_id := cmd.job
  s

/-- Source `run_pwd`. -/
def run_pwd (s : Shell) : Shell :=
  emit (emit s .getcwd_printf) .fflush

/-- Loop of `run_jobs` (lines 231-235): `n` rotations of the job queue. -/
def run_jobs_loop : Nat → Shell → Except Err Shell
  | 0, s => .ok s
  | n + 1, s => do
    let (selected_job, q) ← pop_front s.job_q
    let s1 := print_job selected_job.job_id selected_job.pid selected_job.cmd
      { s with job_q := q }
    run_jobs_loop n { s1 with job_q := push_back s1.job_q selected_job }

/-- Source `run_jobs`. -/
def run_jobs (s : Shell) : Except Err Shell := do
  let number_of_jobs := length_queue s.job_q
  let s1 ← run_jobs_loop number_of_jobs s
  pure (emit s1 .fflush)

/-! ## Command dispatch -/

/-- Source `child_run_command`. -/
def child_run_command (execvp_ok : Bool) (cmd : Command) (s : Shell) : Except Err Shell :=
  match cmd with
  | .generic c => run_generic execvp_ok c s
  | .echo c => .ok (run_echo c s)
  | .pwd => .ok (run_pwd s)
  | .jobs => run_jobs s
  | .exportc _ => .ok s
  | .cd _ => .ok s
  | .kill _ => .ok s
  | .exit => .ok s
  | .eoc => .ok s

/-- Source `parent_run_command`; `new_pwd` is the answer of `getcwd` to `run_cd`. -/
def parent_run_command (new_pwd : Option String) (cmd : Command) (s : Shell) :
    Except Err Shell :=
  match cmd with
  | .exportc c => .ok (run_export c s)
  | .cd c => run_cd new_pwd c s
  | .kill c => .ok (run_kill c s)
  | .generic _ => .ok s
  | .echo _ => .ok s
  | .pwd => .ok s
  | .jobs => .ok s
  | .exit => .ok s
  | .eoc => .ok s

/-! ## Pipeline builder -/

/-- Slot expression `i % 2` of `create_process` (C remainder truncates toward zero). -/
def write_slot (i : Int) : Int := Int.tmod i 2

/-- Slot expression `(i - 1) % 2` of `create_process` (C remainder truncates
toward zero). -/
def read_slot (i : Int) : Int := Int.tmod (i - 1) 2

/-- Redirections of the child branch of `create_process` (lines 374-388). A
failed `fopen` hands `NULL` to `fileno`, which kills the child. -/
def create_process_redirect (fopen_ok : String → String → Bool) (holder : CommandHolder)
    (s : Shell) : Except Err Shell := do
  let r_in := holder.flags.REDIRECT_IN
  let r_out := holder.flags.REDIRECT_OUT
  let r_app := holder.flags.REDIRECT_APPEND
  let s3 ←
    if r_in then
      (if fopen_ok holder.redirect_in "r" then
        pure (emit s (.fopen_dup2 holder.redirect_in "r" 0))
      else .error (.crashed s))
    else pure s
  if r_out then
    (if r_app then
      (if fopen_ok holder.redirect_out "a" then
        pure (emit s3 (.fopen_dup2 holder.redirect_out "a" 1))
      else .error (.crashed s3))
    else
      (if fopen_ok holder.redirect_out "w" then
        pure (emit s3 (.fopen_dup2 holder.redirect_out "w" 1))
      else .error (.crashed s3)))
  else pure s3

/-- Child branch of `create_process` (lines 364-391), up to `exit(0)`. The slot
expressions index `pipes` unchecked. -/
def create_process_child (execvp_ok : Bool) (fopen_ok : String → String → Bool)
    (holder : CommandHolder) (i : Int) (s : Shell) : Except Err Shell := do
  let p_in := holder.flags.PIPE_IN
  let p_out := holder.flags.PIPE_OUT
  let s1 :=
    if p_in then emit (emit s (.dup2 (read_slot i) 0 0)) (.close (read_slot i) 0) else s
  let s2 :=
    if p_out then emit (emit s1 (.dup2 (write_slot i) 1 1)) (.close (write_slot i) 1) else s1
  let s4 ← create_process_redirect fopen_ok holder s2
  let s5 ← child_run_command execvp_ok holder.cmd s4
  .error (.exited 0 s5)

/-- Source `create_process`; `child_pid` is the value `fork()` returned and
`new_pwd` the value `getcwd(NULL, 100)` returns to `run_cd`. -/
def create_process (execvp_ok : Bool) (fopen_ok : String → String → Bool)
    (new_pwd : Option String) (holder : CommandHolder) (i : Int)
    (child_pid : pid_t) (s : Shell) : Except Err Shell :=
  let p_out := holder.flags.PIPE_OUT
  let s1 := if p_out then emit s (.pipe (write_slot i)) else s
  let s2 := emit s1 (.fork child_pid)
  let s3 := { s2 with pid_queue := push_back s2.pid_queue child_pid }
  if child_pid = 0 then
    create_process_child execvp_ok fopen_ok holder i s3
  else
    let s4 := if p_out then emit s3 (.close (write_slot i) 1) else s3
    parent_run_command new_pwd holder.cmd s4

/-! ## Orchestration -/

/-- Two's-complement wrap of a C `int`. -/
def wrap32 (x : Int) : Int := (x + 2147483648) % 4294967296 - 2147483648

/-- Read `holders[i]`; the list is the whole array, so an index past its end is
outside the array. -/
def holders_at (holders : List CommandHolder) (i : Nat) : Except Err CommandHolder :=
  match holders[i]? with
  | some h => .ok h
  | none => .error (.fault .out_of_bounds)

/-- Modelled from the spec: `end_main_loop` of the absent `quash.c` signals
shell termination. -/
def end_main_loop (s : Shell) : Shell := emit s .end_main_loop

/-- Modelled from the spec: `destroy_<deque>` of the absent `deque.h` discards
the queue. -/
def destroy_queue {α : Type} (_q : List α) : List α := []

/-- Stage loop of `run_script` (lines 428-429); the list is the array from
index `k` on and `k` is the value of `i`. -/
def run_script_stages (env : Env) : List CommandHolder → Nat → Shell → Except Err Shell
  | [], _, _ => .error (.fault .out_of_bounds)
  | holder :: rest, k, s =>
    if get_command_holder_type holder = .EOC then .ok s
    else do
      let s1 ← create_process env.execvp_ok env.fopen_ok (env.getcwd k) holder (k : Int)
        (env.fork k) s
      run_script_stages env rest (k + 1) s1

/-- Foreground wait loop of `run_script` (lines 434-438), by recursion on the
queue being drained. -/
def run_script_wait : List pid_t → Shell → Shell
  | [], s => s
  | current_pid :: rest, s =>
    run_script_wait rest
      (emit { s with pid_queue := rest } (.waitpid current_pid false))

/-- Lines 425-459 of `run_script`: launch the stages, then wait for them
(foreground) or record them as a job (background); `h0` is `holders[0]`. -/
def run_script_launch (env : Env) (holders : List CommandHolder) (h0 : CommandHolder)
    (s : Shell) : Except Err Shell := do
  let s3 ← run_script_stages env holders 0 s
  if !h0.flags.BACKGROUND then
    let s4 := run_script_wait s3.pid_queue s3
    .ok { s4 with pid_queue := destroy_queue s4.pid_queue }
  else do
    let job_id := s3.job_number
    let s4 := { s3 with job_number := wrap32 (s3.job_number + 1) }
    let cmd := env.command_string
    let pid ← peek_back s4.pid_queue
    let selected_job : Job :=
      { job_id := job_id, pid_queue := s4.pid_queue, pid := pid, cmd := cmd }
    let s5 := { s4 with job_q := push_back s4.job_q selected_job }
    .ok (print_job_bg_start selected_job.job_id selected_job.pid selected_job.cmd s5)

/-- Source `run_script` (lines 405-423, then `run_script_launch`); `none` is the
C `NULL`. -/
def run_script (env : Env) (holders : Option (List CommandHolder)) (s : Shell) :
    Except Err Shell :=
  let s0 := if !s.booted then { s with job_q := new_queue, booted := true } else s
  let s1 := { s0 with pid_queue := new_queue }
  match holders with
  | none => .ok s1
  | some hs => do
    let s2 ← check_jobs_bg_status env.waitpid_nohang s1
    let h0 ← holders_at hs 0
    let is_exit ←
      if get_command_holder_type h0 = .EXIT then (do
        let h1 ← holders_at hs 1
        pure (decide (get_command_holder_type h1 = .EOC)))
      else pure false
    if is_exit then
      .ok (end_main_loop s2)
    else
      run_script_launch env hs h0 s2

/-! ## Sessions -/

/-- One invocation of `run_script`: its argument and the environment it runs in. -/
structure Call where
  env : Env
  holders : Option (List CommandHolder)

/-- State of the globals when the shell starts. -/
def initial_shell : Shell :=
  { job_q := [], pid_queue := [], job_number := 1, booted := false, trace := [] }

/-- Successive calls of `run_script`, each on the state the previous one left. -/
def run_session : List Call → Shell → Except Err Shell
  | [], s => .ok s
  | c :: cs, s => do
    let s1 ← run_script c.env c.holders s
    run_session cs s1

/-! ## Reference descriptions used by the statements -/

/-- A handle is still running when the non-blocking wait returns 0. -/
def still_running (w : pid_t → Int) (p : pid_t) : Bool := decide (w p = 0)

/-- The job with its queue cut down to the handles still running. -/
def surviving_job (w : pid_t → Int) (j : Job) : Job :=
  { j with pid_queue := j.pid_queue.filter (still_running w) }

/-- The jobs of a table that keep at least one running handle, each cut down
to its running handles. -/
def surviving_jobs (w : pid_t → Int) (T : List Job) : List Job :=
  (T.map (surviving_job w)).filter (fun j => !j.pid_queue.isEmpty)

/-- The three actions of one job-complete notification. -/
def job_complete_notification (job_id : Int) (pid : pid_t) (cmd : String) : List Event :=
  [.printf "Completed: \t", .printf_job job_id pid cmd, .fflush]

/-- The three actions of one background-job-started notification. -/
def job_started_notification (job_id : Int) (pid : pid_t) (cmd : String) : List Event :=
  [.printf "Background job started: ", .printf_job job_id pid cmd, .fflush]

/-- Actions of the reaper on one job: one non-blocking wait per handle, then
the completion notice when no handle survives. -/
def reaper_job_events (w : pid_t → Int) (j : Job) : List Event :=
  j.pid_queue.map (fun p => Event.waitpid p true) ++
    (if (j.pid_queue.filter (still_running w)).isEmpty then
      job_complete_notification j.job_id (j.pid_queue.headD 0) j.cmd
    else [])

/-- Actions of one reaper pass over a table. -/
def reaper_events (w : pid_t → Int) (T : List Job) : List Event :=
  T.flatMap (reaper_job_events w)

/-- Lines printed by `run_jobs` for a table: one `print_job` per record. -/
def listing_events (T : List Job) : List Event :=
  T.flatMap (fun j => [Event.printf_job j.job_id j.pid j.cmd, Event.fflush])

/-- Actions of a returning `parent_run_command` for a command, `getcwd` having
answered `new_pwd`. -/
def parent_command_events (new_pwd : Option String) : Command → List Event
  | .exportc c => [.setenv c.env_var c.val]
  | .cd c =>
    match c.dir with
    | none => [.perror "ERROR: Failed to resolve path"]
    | some dir => [.chdir dir] ++ (new_pwd.map (fun pwd => Event.setenv "PWD" pwd)).toList
  | _ => []

/-- The parent-side `cd` of the command, if any, returns: `getcwd` did not
answer `NULL` to a `cd` with a directory. -/
def cd_returns (new_pwd : Option String) (cmd : Command) : Prop :=
  ∀ c dir, cmd = .cd c → c.dir = some dir → new_pwd.isSome = true

/-- Actions of the parent side of `create_process` for stage `i` whose fork
returned `child_pid`. -/
def stage_events (new_pwd : Option String) (holder : CommandHolder) (i : Int)
    (child_pid : pid_t) : List Event :=
  (if holder.flags.PIPE_OUT then [Event.pipe (write_slot i)] else []) ++
    [Event.fork child_pid] ++
    (if holder.flags.PIPE_OUT then [Event.close (write_slot i) 1] else []) ++
    parent_command_events new_pwd holder.cmd

/-- Actions of the parent over the stages of a pipeline, the first of which has
index `k`. -/
def stages_events (env : Env) : List CommandHolder → Nat → List Event
  | [], _ => []
  | holder :: rest, k =>
    stage_events (env.getcwd k) holder (k : Int) (env.fork k) ++
      stages_events env rest (k + 1)

/-- Values returned by the forks number `k`, ..., `k + n - 1`. -/
def forked_pids (env : Env) : Nat → Nat → List pid_t
  | 0, _ => []
  | n + 1, k => env.fork k :: forked_pids env n (k + 1)

/-- The job table `run_script` works on: `job_q` once booted, a fresh empty
queue on the first call. -/
def table_at_entry (s : Shell) : List Job := if s.booted then s.job_q else []

/-- The sequence is `[Exit, EndOfCommands, ...]`. -/
def is_exit_sequence : List CommandHolder → Bool
  | h0 :: h1 :: _ =>
    decide (get_command_holder_type h0 = .EXIT) && decide (get_command_holder_type h1 = .EOC)
  | _ => false

/-- The fork performed for a stage. -/
def fork_of : Event → Option pid_t
  | .fork p => some p
  | _ => none

/-- The handle of a blocking wait. -/
def blocking_wait_of : Event → Option pid_t
  | .waitpid p false => some p
  | _ => none

/-- The handle of a non-blocking wait. -/
def nonblocking_wait_of : Event → Option pid_t
  | .waitpid p true => some p
  | _ => none

/-- The content of a formatted job line. -/
def job_line_of : Event → Option (Int × pid_t × String)
  | .printf_job job_id pid cmd => some (job_id, pid, cmd)
  | _ => none

/-- The signal delivered to a process. -/
def kill_of : Event → Option (pid_t × Int)
  | .kill p sig => some (p, sig)
  | _ => none

/-- Actions issued between two states of the same process. -/
def new_events (s s1 : Shell) : List Event := s1.trace.drop s.trace.length

/-- The first descriptor carries the background flag. -/
def is_background : List CommandHolder → Bool
  | h0 :: _ => h0.flags.BACKGROUND
  | [] => false

/-- State in which `run_script` leaves the reaper pass: the surviving jobs, a
fresh empty pid queue, and the reaper's actions added to the trace. -/
def reaped_state (w : pid_t → Int) (s : Shell) : Shell :=
  { job_q := surviving_jobs w (table_at_entry s),
    pid_queue := [],
    job_number := s.job_number,
    booted := true,
    trace := s.trace ++ reaper_events w (table_at_entry s) }

/-- Every job of the table holds at least one process handle. -/
def queues_nonempty (T : List Job) : Prop := ∀ j ∈ T, j.pid_queue ≠ []

/-- The list is a pipeline of the stages `stages` closed by the marker `eoc`. -/
def is_pipeline (holders stages : List CommandHolder) (eoc : CommandHolder)
    (rest : List CommandHolder) : Prop :=
  holders = stages ++ eoc :: rest ∧
    (∀ h ∈ stages, get_command_holder_type h ≠ .EOC) ∧
    get_command_holder_type eoc = .EOC

/-- A background-flagged sequence has at least one stage before the marker. -/
def background_has_stage : List CommandHolder → Prop
  | h0 :: _ => h0.flags.BACKGROUND = true → get_command_holder_type h0 ≠ .EOC
  | [] => True

/-- The call launches a background job: a non-exit sequence whose first
descriptor carries the background flag. -/
def is_background_launch (c : Call) : Bool :=
  match c.holders with
  | some hs => !is_exit_sequence hs && is_background hs
  | none => false

/-- Number of background launches among the calls. -/
def launches (calls : List Call) : Nat := (calls.filter is_background_launch).length

/-- Actions the parent side of the pipeline builder can issue. -/
def is_builder_event : Event → Bool
  | .pipe _ => true
  | .close _ _ => true
  | .fork _ => true
  | .setenv _ _ => true
  | .chdir _ => true
  | .perror _ => true
  | _ => false

/-- Actions the reaper can issue: non-blocking waits and the three parts of a
completion notice. -/
def is_reaper_event : Event → Bool
  | .waitpid _ true => true
  | .printf text => decide (text = "Completed: \t")
  | .printf_job _ _ _ => true
  | .fflush => true
  | _ => false

/-- Every parent-side `cd` among the stages returns, the first stage having
index `k`. -/
def stages_return (env : Env) (stages : List CommandHolder) (k : Nat) : Prop :=
  ∀ m holder, stages[m]? = some holder → cd_returns (env.getcwd (k + m)) holder.cmd

/-- State in which a run of the process ends: the state returned, or the one in
which it exited, was replaced or was killed. -/
def final_state : Except Err Shell → Option Shell
  | .ok s => some s
  | .error (.exited _ s) => some s
  | .error (.replaced s) => some s
  | .error (.crashed s) => some s
  | .error (.fault _) => none

/-- Actions on the pipe slots: `pipe`, `dup2` and `close` on an end of a slot. -/
def is_pipe_op : Event → Bool
  | .pipe _ => true
  | .dup2 _ _ _ => true
  | .close _ _ => true
  | _ => false

/-- Pipe wiring of one stage as the design describes it, for a write slot `w`
and a read slot `r`: one pipe on slot `w` when the stage writes to a pipe; in the
child, stdin from the read end of slot `r` and stdout to the write end of slot
`w`, each closed after duplicating; in the parent, the write end of slot `w`
closed. -/
def expected_pipe_ops (flags : Flags) (w r : Int) (in_child : Bool) : List Event :=
  (if flags.PIPE_OUT then [Event.pipe w] else []) ++
    (if in_child then
      (if flags.PIPE_IN then [Event.dup2 r 0 0, Event.close r 0] else []) ++
      (if flags.PIPE_OUT then [Event.dup2 w 1 1, Event.close w 1] else [])
    else
      (if flags.PIPE_OUT then [Event.close w 1] else []))

/-- The run from `s` to `sf` only adds actions, none of them on a pipe slot. -/
def quiet (s sf : Shell) : Prop :=
  ∃ evs, sf.trace = s.trace ++ evs ∧ ∀ e ∈ evs, is_pipe_op e = false

/-- Actions of `create_process` on the pipe slots and the fork, as the code
writes them: with the C expressions `i % 2` and `(i - 1) % 2`. -/
def wiring_events (flags : Flags) (i : Int) (child_pid : pid_t) : List Event :=
  (if flags.PIPE_OUT then [Event.pipe (write_slot i)] else []) ++
    [Event.fork child_pid] ++
    (if child_pid = 0 then
      (if flags.PIPE_IN then
        [Event.dup2 (read_slot i) 0 0, Event.close (read_slot i) 0] else []) ++
      (if flags.PIPE_OUT then
        [Event.dup2 (write_slot i) 1 1, Event.close (write_slot i) 1] else [])
    else
      (if flags.PIPE_OUT then [Event.close (write_slot i) 1] else []))

/-! ## Concrete inputs -/

/-- State given to `run_script` just before its reaper pass. -/
def entry_state (s : Shell) : Shell :=
  { job_q := table_at_entry s, pid_queue := [], job_number := s.job_number,
    booted := true, trace := s.trace }

/-- No flag set. -/
def ex_flags : Flags :=
  { PIPE_IN := false, PIPE_OUT := false, REDIRECT_IN := false, REDIRECT_OUT := false,
    REDIRECT_APPEND := false, BACKGROUND := false }

/-- A generic program stage. -/
def ex_stage (prog : String) (flags : Flags) : CommandHolder :=
  { flags := flags, cmd := .generic { args := [prog] }, redirect_in := "", redirect_out := "" }

/-- The end-of-commands marker. -/
def ex_eoc : CommandHolder :=
  { flags := ex_flags, cmd := .eoc, redirect_in := "", redirect_out := "" }

/-- The `exit` builtin. -/
def ex_exit : CommandHolder :=
  { flags := ex_flags, cmd := .exit, redirect_in := "", redirect_out := "" }

/-- An environment: forks return 10, 11, ...; every process has exited. -/
def ex_env_done : Env :=
  { fork := fun k => 10 + k, waitpid_nohang := fun p => p, command_string := "a | b &",
    execvp_ok := true, getcwd := fun _ => some "/tmp", fopen_ok := fun _ _ => true }

/-- An environment: forks return 20, 21, ...; process 10 has exited, the others run. -/
def ex_env_running : Env :=
  { fork := fun k => 20 + k, waitpid_nohang := fun p => if p = 10 then 10 else 0,
    command_string := "c", execvp_ok := true, getcwd := fun _ => some "/tmp",
    fopen_ok := fun _ _ => true }

/-- The background pipeline `a | b &`. -/
def ex_bg_pipeline : List CommandHolder :=
  [ex_stage "a" { ex_flags with PIPE_OUT := true, BACKGROUND := true },
   ex_stage "b" { ex_flags with PIPE_IN := true, BACKGROUND := true },
   ex_eoc]

/-- The foreground pipeline `c | d`. -/
def ex_fg_pipeline : List CommandHolder :=
  [ex_stage "c" { ex_flags with PIPE_OUT := true },
   ex_stage "d" { ex_flags with PIPE_IN := true },
   ex_eoc]

/-- The sequence `exit`. -/
def ex_exit_sequence : List CommandHolder := [ex_exit, ex_eoc]

/-- The shell after launching `a | b &` as its first command. -/
def ex_shell_one_job : Shell :=
  { job_q := [{ job_id := 1, pid_queue := [10, 11], pid := 11, cmd := "a | b &" }],
    pid_queue := [10, 11],
    job_number := 2,
    booted := true,
    trace := [.pipe 0, .fork 10, .close 0 1, .fork 11,
              .printf "Background job started: ", .printf_job 1 11 "a | b &", .fflush] }

/-- A first stage carrying the `PIPE_IN` flag. -/
def ex_stage_pipe_in : CommandHolder :=
  ex_stage "cat" { ex_flags with PIPE_IN := true }

/-- The descriptor of `kill 9 1`. -/
def ex_kill : CommandHolder :=
  { flags := ex_flags, cmd := .kill { sig := 9, job := 1 }, redirect_in := "",
    redirect_out := "" }

/-- The first two calls of `ex_session`: `a | b &`, then `c | d`. -/
def ex_session_front : List Call :=
  [{ env := ex_env_done, holders := some ex_bg_pipeline },
   { env := ex_env_running, holders := some ex_fg_pipeline }]

/-- The last call of `ex_session`: `a | b &`, once both earlier processes are gone. -/
def ex_call_last : Call :=
  { env := ex_env_done, holders := some ex_bg_pipeline }

/-- A session: `a | b &`, then `c | d`, then `a | b &` again. -/
def ex_session : List Call := ex_session_front ++ [ex_call_last]

/-- The two stages of `c | d`. -/
def ex_fg_stages : List CommandHolder :=
  [ex_stage "c" { ex_flags with PIPE_OUT := true },
   ex_stage "d" { ex_flags with PIPE_IN := true }]

/-- The two stages of `a | b &`. -/
def ex_bg_stages : List CommandHolder :=
  [ex_stage "a" { ex_flags with PIPE_OUT := true, BACKGROUND := true },
   ex_stage "b" { ex_flags with PIPE_IN := true, BACKGROUND := true }]

/-- The shell after `ex_session`. -/
def ex_session_final : Shell :=
  { job_q := [{ job_id := 2, pid_queue := [10, 11], pid := 11, cmd := "a | b &" }],
    pid_queue := [10, 11],
    job_number := 3,
    booted := true,
    trace := [.pipe 0, .fork 10, .close 0 1, .fork 11,
              .printf "Background job started: ", .printf_job 1 11 "a | b &", .fflush,
              .waitpid 10 true, .waitpid 11 true,
              .pipe 0, .fork 20, .close 0 1, .fork 21,
              .waitpid 20 false, .waitpid 21 false,
              .waitpid 11 true,
              .printf "Completed: \t", .printf_job 1 11 "a | b &", .fflush,
              .pipe 0, .fork 10, .close 0 1, .fork 11,
              .printf "Background job started: ", .printf_job 2 11 "a | b &", .fflush] }

/-- An environment in which the working directory path needs 100 bytes or more:
`getcwd(NULL, 100)` answers `NULL`. Forks return 20, 21, ... -/
def ex_env_long_cwd : Env :=
  { fork := fun k => 20 + k, waitpid_nohang := fun _ => 0, command_string := "cd deep",
    execvp_ok := true, getcwd := fun _ => none, fopen_ok := fun _ _ => true }

/-- The descriptor of `cd deep`, with the given flags. -/
def ex_cd (flags : Flags) : CommandHolder :=
  { flags := flags, cmd := .cd { dir := some "deep" }, redirect_in := "", redirect_out := "" }

/-- The foreground sequence `cd deep`. -/
def ex_cd_pipeline : List CommandHolder := [ex_cd ex_flags, ex_eoc]

/-- The background sequence `cd deep &`. -/
def ex_cd_bg_pipeline : List CommandHolder :=
  [ex_cd { ex_flags with BACKGROUND := true }, ex_eoc]

/-- The `exit` builtin carrying the background flag. -/
def ex_exit_bg : CommandHolder :=
  { flags := { ex_flags with BACKGROUND := true }, cmd := .exit, redirect_in := "",
    redirect_out := "" }

/-- The sequence `exit &`. -/
def ex_exit_bg_sequence : List CommandHolder := [ex_exit_bg, ex_eoc]

/-- A stage in the middle of a pipeline: reads from a pipe and writes to one. -/
def ex_stage_middle : CommandHolder :=
  ex_stage "sort" { ex_flags with PIPE_IN := true, PIPE_OUT := true }

/-! ## Lemmas: the `Except` monad -/

@[simp] theorem bind_ok_eq {α β : Type} (a : α) (f : α → Except Err β) :
    (bind (Except.ok a) f : Except Err β) = f a := rfl

@[simp] theorem bind_error_eq {α β : Type} (e : Err) (f : α → Except Err β) :
    (bind (Except.error e : Except Err α) f : Except Err β) = Except.error e := rfl

@[simp] theorem pure_eq_ok {α : Type} (a : α) : (pure a : Except Err α) = Except.ok a := rfl

/-! ## Lemmas: the reaper -/

theorem processes_loop (w : pid_t → Int) (rest : List pid_t) :
    ∀ (kept : List pid_t) (job : Job) (s : Shell),
      check_jobs_bg_status_processes w rest.length
          { job with pid_queue := rest ++ kept } s
        = .ok ({ job with pid_queue := kept ++ rest.filter (still_running w) },
               { s with trace := s.trace ++ rest.map (fun p => Event.waitpid p true) }) := by
  induction rest with
  | nil => intro kept job s; simp [check_jobs_bg_status_processes]
  | cons p rest ih =>
    intro kept job s
    simp only [List.length_cons, check_jobs_bg_status_processes, List.cons_append, pop_front,
      bind_ok_eq]
    by_cases hp : w p = 0
    · have h1 := ih (kept ++ [p]) job (emit s (.waitpid p true))
      simp only [emit] at h1
      simp only [push_back, hp, if_true, emit, List.append_assoc]
      rw [h1]
      simp [still_running, hp, List.filter_cons]
    · have h1 := ih kept job (emit s (.waitpid p true))
      simp only [emit] at h1
      simp only [hp, if_false, emit]
      rw [h1]
      simp [still_running, hp, List.filter_cons]

theorem processes_drain (w : pid_t → Int) (job : Job) (s : Shell) :
    check_jobs_bg_status_processes w (length_queue job.pid_queue) job s
      = .ok (surviving_job w job,
             { s with trace := s.trace ++ job.pid_queue.map (fun p => Event.waitpid p true) }) := by
  have h := processes_loop w job.pid_queue [] job s
  simpa [length_queue, surviving_job] using h

theorem jobs_loop (w : pid_t → Int) (front : List Job) :
    ∀ (back : List Job) (s : Shell), (∀ j ∈ front, j.pid_queue ≠ []) →
      check_jobs_bg_status_jobs w front.length { s with job_q := front ++ back }
        = .ok { s with job_q := back ++ surviving_jobs w front,
                       trace := s.trace ++ reaper_events w front } := by
  induction front with
  | nil => intro back s _; simp [check_jobs_bg_status_jobs, surviving_jobs, reaper_events]
  | cons j front ih =>
    intro back s hne
    have hj : j.pid_queue ≠ [] := hne j (List.mem_cons_self _ _)
    have hrest : ∀ x ∈ front, x.pid_queue ≠ [] := fun x hx => hne x (List.mem_cons_of_mem _ hx)
    obtain ⟨p, ps, hps⟩ := List.exists_cons_of_ne_nil hj
    simp only [List.length_cons, check_jobs_bg_status_jobs, List.cons_append, pop_front,
      bind_ok_eq, processes_drain]
    rw [hps]
    simp only [peek_front, bind_ok_eq]
    by_cases hdone : (List.filter (still_running w) (p :: ps)).isEmpty = true
    · have h1 := ih back
        (print_job_bg_complete j.job_id p j.cmd
          { s with trace := s.trace ++ (p :: ps).map (fun p => Event.waitpid p true) }) hrest
      simp only [is_empty_queue, surviving_job, hps, hdone, if_true]
      simp only [print_job_bg_complete, print_job, emit] at h1 ⊢
      rw [h1]
      simp [surviving_jobs, surviving_job, reaper_events, reaper_job_events, hps, hdone,
        job_complete_notification]
    · have h1 := ih (back ++ [surviving_job w j])
        { s with trace := s.trace ++ (p :: ps).map (fun p => Event.waitpid p true) } hrest
      simp only [is_empty_queue, surviving_job, hps, hdone, push_back] at h1 ⊢
      simp only [← List.append_assoc] at h1
      simp only [Bool.false_eq_true, if_false]
      rw [h1]
      simp [surviving_jobs, surviving_job, reaper_events, reaper_job_events, hps, hdone]

/-- Exact result of one reaper pass over a table whose jobs all hold a handle. -/
theorem check_jobs_bg_status_eq (w : pid_t → Int) (s : Shell)
    (hne : ∀ j ∈ s.job_q, j.pid_queue ≠ []) :
    check_jobs_bg_status w s
      = .ok { s with job_q := surviving_jobs w s.job_q,
                     trace := s.trace ++ reaper_events w s.job_q } := by
  have h := jobs_loop w s.job_q [] s hne
  simpa [check_jobs_bg_status, length_queue] using h

/-! ## Lemmas: listing and the pipeline builder -/

theorem run_jobs_loop_eq (front : List Job) :
    ∀ (back : List Job) (s : Shell),
      run_jobs_loop front.length { s with job_q := front ++ back }
        = .ok { s with job_q := back ++ front, trace := s.trace ++ listing_events front } := by
  induction front with
  | nil => intro back s; simp [run_jobs_loop, listing_events]
  | cons j front ih =>
    intro back s
    have h1 := ih (back ++ [j])
      { s with trace := s.trace ++ [Event.printf_job j.job_id j.pid j.cmd, Event.fflush] }
    simp only [List.append_assoc, List.singleton_append, List.cons_append, List.nil_append] at h1
    simp only [List.length_cons, run_jobs_loop, List.cons_append, pop_front, bind_ok_eq,
      print_job, emit, push_back, List.append_assoc, List.singleton_append, List.nil_append]
    rw [h1]
    simp [listing_events]

/-- Exact result of `run_jobs`: it always returns, with the table as it was. -/
theorem run_jobs_eq (s : Shell) :
    run_jobs s = .ok { s with trace := s.trace ++ listing_events s.job_q ++ [Event.fflush] } := by
  have h := run_jobs_loop_eq s.job_q [] s
  simp only [List.append_nil, List.nil_append] at h
  simp [run_jobs, length_queue, h, emit]

theorem parent_run_command_eq (new_pwd : Option String) (cmd : Command) (s : Shell)
    (h : cd_returns new_pwd cmd) :
    parent_run_command new_pwd cmd s
      = .ok { s with trace := s.trace ++ parent_command_events new_pwd cmd } := by
  cases cmd with
  | cd c =>
    cases hd : c.dir with
    | none => simp [parent_run_command, parent_command_events, run_cd, emit, hd]
    | some dir =>
      have hs := h c dir rfl hd
      obtain ⟨pwd, hpwd⟩ := Option.isSome_iff_exists.1 hs
      simp [parent_run_command, parent_command_events, run_cd, emit, hd, hpwd]
  | _ => simp [parent_run_command, parent_command_events, run_export, run_kill, emit]

theorem parent_run_command_crash (new_pwd : Option String) (cmd : Command) (s : Shell)
    (h : ¬ cd_returns new_pwd cmd) :
    ∃ dir, parent_run_command new_pwd cmd s = .error (.crashed (emit s (.chdir dir))) := by
  unfold cd_returns at h
  push_neg at h
  obtain ⟨c, dir, hc, hd, hn⟩ := h
  have hpwd : new_pwd = none := by
    cases new_pwd with
    | none => rfl
    | some w => simp at hn
  exact ⟨dir, by simp [hc, parent_run_command, run_cd, hd, hpwd]⟩

theorem write_slot_eq (i : Int) (hi : 0 ≤ i) : write_slot i = i % 2 :=
  Int.tmod_eq_emod hi (by decide)

theorem read_slot_eq (i : Int) (hi : 1 ≤ i) : read_slot i = (i - 1) % 2 :=
  Int.tmod_eq_emod (by omega) (by decide)

/-- Exact result of `create_process` in the parent (`fork` returned non-zero)
when the parent-side command returns. -/
theorem create_process_parent (x : Bool) (fo : String → String → Bool)
    (new_pwd : Option String) (holder : CommandHolder) (i : Int) (p : pid_t)
    (s : Shell) (hp : p ≠ 0) (hcd : cd_returns new_pwd holder.cmd) :
    create_process x fo new_pwd holder i p s
      = .ok { s with pid_queue := s.pid_queue ++ [p],
                     trace := s.trace ++ stage_events new_pwd holder i p } := by
  cases hout : holder.flags.PIPE_OUT <;>
    simp [create_process, hout, hp, parent_run_command_eq _ _ _ hcd, emit,
      push_back, stage_events]

/-- In the parent, a `cd` whose `getcwd` answers `NULL` kills the shell. -/
theorem create_process_parent_crash (x : Bool) (fo : String → String → Bool)
    (new_pwd : Option String) (holder : CommandHolder) (i : Int) (p : pid_t)
    (s : Shell) (hp : p ≠ 0) (hcd : ¬ cd_returns new_pwd holder.cmd) :
    ∃ sf, create_process x fo new_pwd holder i p s = .error (.crashed sf) := by
  simp only [create_process, hp, if_false]
  obtain ⟨dir, h⟩ := parent_run_command_crash new_pwd holder.cmd
    (if holder.flags.PIPE_OUT = true then
      emit { (emit (if holder.flags.PIPE_OUT = true then emit s (.pipe (write_slot i)) else s)
                (.fork p)) with
              pid_queue := push_back
                (emit (if holder.flags.PIPE_OUT = true then emit s (.pipe (write_slot i)) else s)
                  (.fork p)).pid_queue p }
        (.close (write_slot i) 1)
    else
      { (emit (if holder.flags.PIPE_OUT = true then emit s (.pipe (write_slot i)) else s)
            (.fork p)) with
          pid_queue := push_back
            (emit (if holder.flags.PIPE_OUT = true then emit s (.pipe (write_slot i)) else s)
              (.fork p)).pid_queue p }) hcd
  exact ⟨_, h⟩

theorem child_run_command_no_underflow (x : Bool) (cmd : Command) (s : Shell) :
    child_run_command x cmd s ≠ .error (.fault .underflow) := by
  cases cmd <;> simp [child_run_command, run_jobs_eq, run_generic]
  split <;> simp

/-- The child branch never returns to `run_script`, and never underflows a queue. -/
theorem create_process_child_result (x : Bool) (fo : String → String → Bool)
    (holder : CommandHolder) (i : Int) (s : Shell) :
    (∀ s1, create_process_child x fo holder i s ≠ .ok s1) ∧
      create_process_child x fo holder i s ≠ .error (.fault .underflow) := by
  have key : ∀ (r : Except Err Shell), r ≠ .error (.fault .underflow) →
      (∀ s1, (r >>= fun s5 => (Except.error (Err.exited 0 s5) : Except Err Shell)) ≠ .ok s1) ∧
      (r >>= fun s5 => (Except.error (Err.exited 0 s5) : Except Err Shell))
        ≠ .error (.fault .underflow) := by
    intro r hr
    cases r with
    | error e => exact ⟨fun s1 => by simp, by simpa using hr⟩
    | ok v => exact ⟨fun s1 => by simp, by simp⟩
  unfold create_process_child create_process_redirect
  simp only []
  split_ifs <;>
    (try simp only [pure_eq_ok, bind_ok_eq, bind_error_eq]) <;>
    first
      | exact key _ (child_run_command_no_underflow _ _ _)
      | exact ⟨fun s1 => by simp, by simp⟩
/-! ## Lemmas: `run_script` -/

theorem create_process_zero (x : Bool) (fo : String → String → Bool)
    (new_pwd : Option String) (holder : CommandHolder) (i : Int) (s : Shell) :
    (∀ s1, create_process x fo new_pwd holder i 0 s ≠ .ok s1) ∧
      create_process x fo new_pwd holder i 0 s ≠ .error (.fault .underflow) := by
  simp only [create_process, if_true]
  exact create_process_child_result _ _ _ _ _

theorem stages_return_head (env : Env) (h : CommandHolder) (stages : List CommandHolder)
    (k : Nat) (hcd : stages_return env (h :: stages) k) :
    cd_returns (env.getcwd k) h.cmd := by
  have := hcd 0 h (by simp)
  simpa using this

theorem stages_return_tail (env : Env) (h : CommandHolder) (stages : List CommandHolder)
    (k : Nat) (hcd : stages_return env (h :: stages) k) :
    stages_return env stages (k + 1) := by
  intro m holder hm
  have := hcd (m + 1) holder (by simpa using hm)
  rwa [show k + (m + 1) = k + 1 + m by omega] at this

theorem stages_return_cons (env : Env) (h : CommandHolder) (stages : List CommandHolder)
    (k : Nat) (h0 : cd_returns (env.getcwd k) h.cmd)
    (ht : stages_return env stages (k + 1)) :
    stages_return env (h :: stages) k := by
  intro m holder hm
  cases m with
  | zero =>
    simp only [List.getElem?_cons_zero, Option.some.injEq] at hm
    subst hm
    simpa using h0
  | succ m =>
    have := ht m holder (by simpa using hm)
    rwa [show k + 1 + m = k + (m + 1) by omega] at this

theorem run_script_stages_eq (env : Env) (stages : List CommandHolder) :
    ∀ (k : Nat) (s : Shell) (eoc : CommandHolder) (rest : List CommandHolder),
      (∀ h ∈ stages, get_command_holder_type h ≠ .EOC) →
      get_command_holder_type eoc = .EOC →
      (∀ m, m < stages.length → env.fork (k + m) ≠ 0) →
      stages_return env stages k →
      run_script_stages env (stages ++ eoc :: rest) k s
        = .ok { s with pid_queue := s.pid_queue ++ forked_pids env stages.length k,
                       trace := s.trace ++ stages_events env stages k } := by
  induction stages with
  | nil =>
    intro k s eoc rest _ he _ _
    simp [run_script_stages, he, forked_pids, stages_events]
  | cons h stages ih =>
    intro k s eoc rest hty he hf hcd
    have hh : get_command_holder_type h ≠ .EOC := hty h (List.mem_cons_self _ _)
    have hf0 : env.fork k ≠ 0 := by simpa using hf 0 (by simp)
    have hrest : ∀ m, m < stages.length → env.fork (k + 1 + m) ≠ 0 := by
      intro m hm
      have := hf (m + 1) (by simp; omega)
      rwa [show k + (m + 1) = k + 1 + m by omega] at this
    simp only [List.cons_append, run_script_stages, hh, if_false,
      create_process_parent _ _ _ h (k : Int) (env.fork k) s hf0
        (stages_return_head env h stages k hcd), bind_ok_eq, List.append_eq]
    rw [ih (k + 1) _ eoc rest (fun x hx => hty x (List.mem_cons_of_mem _ hx)) he hrest
      (stages_return_tail env h stages k hcd)]
    simp [forked_pids, stages_events]

theorem run_script_stages_inv (env : Env) (hs : List CommandHolder) :
    ∀ (k : Nat) (s s1 : Shell), run_script_stages env hs k s = .ok s1 →
      ∃ stages eoc rest, is_pipeline hs stages eoc rest ∧
        (∀ m, m < stages.length → env.fork (k + m) ≠ 0) ∧
        stages_return env stages k := by
  induction hs with
  | nil => intro k s s1 h; simp [run_script_stages] at h
  | cons h hs ih =>
    intro k s s1 hrun
    by_cases hh : get_command_holder_type h = .EOC
    · exact ⟨[], h, hs, ⟨rfl, by simp, hh⟩, by simp, by intro m holder hm; simp at hm⟩
    · simp only [run_script_stages, hh, if_false] at hrun
      by_cases hf0 : env.fork k = 0
      · rw [hf0] at hrun
        cases hc : create_process env.execvp_ok env.fopen_ok (env.getcwd k) h (k : Int) 0 s with
        | error e => rw [hc] at hrun; simp at hrun
        | ok v => exact absurd hc ((create_process_zero _ _ _ _ _ _).1 v)
      · by_cases hcd : cd_returns (env.getcwd k) h.cmd
        · rw [create_process_parent _ _ _ h (k : Int) (env.fork k) s hf0 hcd,
            bind_ok_eq] at hrun
          obtain ⟨stages, eoc, rest, ⟨heq, hty, he⟩, hf, hret⟩ := ih (k + 1) _ s1 hrun
          refine ⟨h :: stages, eoc, rest, ⟨by simp [heq], ?_, he⟩, ?_,
            stages_return_cons env h stages k hcd hret⟩
          · intro x hx
            rcases List.mem_cons.1 hx with rfl | hx
            · exact hh
            · exact hty x hx
          · intro m hm
            cases m with
            | zero => simpa using hf0
            | succ m =>
              have := hf m (by simpa using hm)
              rwa [show k + 1 + m = k + (m + 1) by omega] at this
        · obtain ⟨sf, hc⟩ := create_process_parent_crash env.execvp_ok env.fopen_ok
            (env.getcwd k) h (k : Int) (env.fork k) s hf0 hcd
          rw [hc] at hrun
          simp at hrun

theorem run_script_stages_no_underflow (env : Env) (hs : List CommandHolder) :
    ∀ (k : Nat) (s : Shell), run_script_stages env hs k s ≠ .error (.fault .underflow) := by
  induction hs with
  | nil => intro k s; simp [run_script_stages]
  | cons h hs ih =>
    intro k s
    by_cases hh : get_command_holder_type h = .EOC
    · simp [run_script_stages, hh]
    · simp only [run_script_stages, hh, if_false]
      by_cases hf0 : env.fork k = 0
      · rw [hf0]
        cases hc : create_process env.execvp_ok env.fopen_ok (env.getcwd k) h (k : Int) 0 s with
        | error e =>
          simp only [bind_error_eq]
          intro he
          rw [he] at hc
          exact (create_process_zero _ _ _ _ _ _).2 hc
        | ok v => exact absurd hc ((create_process_zero _ _ _ _ _ _).1 v)
      · by_cases hcd : cd_returns (env.getcwd k) h.cmd
        · rw [create_process_parent _ _ _ h (k : Int) (env.fork k) s hf0 hcd, bind_ok_eq]
          exact ih _ _
        · obtain ⟨sf, hc⟩ := create_process_parent_crash env.execvp_ok env.fopen_ok
            (env.getcwd k) h (k : Int) (env.fork k) s hf0 hcd
          rw [hc]
          simp

theorem forked_pids_getLast (env : Env) (n : Nat) :
    ∀ k, (forked_pids env (n + 1) k).getLast? = some (env.fork (k + n)) := by
  induction n with
  | zero => intro k; simp [forked_pids]
  | succ n ih =>
    intro k
    have h := ih (k + 1)
    rw [show k + 1 + n = k + (n + 1) by omega] at h
    have hc : forked_pids env (n + 1) (k + 1)
        = env.fork (k + 1) :: forked_pids env n (k + 1 + 1) := rfl
    rw [forked_pids, hc, List.getLast?_cons_cons, ← hc]
    exact h

theorem forked_pids_eq_map (env : Env) (n : Nat) :
    ∀ k, forked_pids env n k = (List.range n).map (fun m => env.fork (k + m)) := by
  induction n with
  | zero => intro k; rfl
  | succ n ih =>
    intro k
    rw [forked_pids, ih (k + 1), List.range_succ_eq_map]
    simp [Function.comp_def, Nat.add_assoc, Nat.add_comm 1]

theorem run_script_wait_eq (q : List pid_t) :
    ∀ s : Shell, run_script_wait q s
      = { s with pid_queue := if q = [] then s.pid_queue else [],
                 trace := s.trace ++ q.map (fun p => Event.waitpid p false) } := by
  induction q with
  | nil => intro s; simp [run_script_wait]
  | cons p q ih =>
    intro s
    rw [run_script_wait, ih]
    cases q <;> simp [emit]


theorem entry_state_eq (s : Shell) :
    ({ (if (!s.booted) = true then { s with job_q := new_queue, booted := true } else s) with
        pid_queue := new_queue } : Shell)
      = { job_q := table_at_entry s, pid_queue := [], job_number := s.job_number,
          booted := true, trace := s.trace } := by
  cases hb : s.booted <;> simp [table_at_entry, new_queue, hb]

theorem run_script_none (env : Env) (s : Shell) :
    run_script env none s
      = .ok { job_q := table_at_entry s, pid_queue := [], job_number := s.job_number,
              booted := true, trace := s.trace } := by
  simp only [run_script, entry_state_eq]

/-- The reaper pass and the exit test of `run_script`, for a table whose jobs all
hold a handle. -/
theorem run_script_some (env : Env) (hs : List CommandHolder) (s : Shell)
    (hne : queues_nonempty (table_at_entry s)) :
    run_script env (some hs) s =
      match hs with
      | [] => .error (.fault .out_of_bounds)
      | [h0] =>
        if get_command_holder_type h0 = .EXIT then .error (.fault .out_of_bounds)
        else run_script_launch env hs h0 (reaped_state env.waitpid_nohang s)
      | h0 :: h1 :: t =>
        if is_exit_sequence (h0 :: h1 :: t) then
          .ok (end_main_loop (reaped_state env.waitpid_nohang s))
        else run_script_launch env hs h0 (reaped_state env.waitpid_nohang s) := by
  have hreap := check_jobs_bg_status_eq env.waitpid_nohang
    { job_q := table_at_entry s, pid_queue := [], job_number := s.job_number,
      booted := true, trace := s.trace } hne
  simp only [run_script, entry_state_eq, hreap, bind_ok_eq]
  match hs with
  | [] => simp [holders_at]
  | [h0] =>
    by_cases hE : get_command_holder_type h0 = .EXIT <;>
      simp [holders_at, hE, reaped_state]
  | h0 :: h1 :: t =>
    by_cases hE : get_command_holder_type h0 = .EXIT <;>
      by_cases hC : get_command_holder_type h1 = .EOC <;>
      simp [holders_at, hE, hC, is_exit_sequence, reaped_state]

theorem run_script_launch_fg (env : Env) (hs stages : List CommandHolder)
    (eoc : CommandHolder) (rest : List CommandHolder) (h0 : CommandHolder) (s : Shell)
    (hp : is_pipeline hs stages eoc rest)
    (hf : ∀ m, m < stages.length → env.fork m ≠ 0)
    (hcd : stages_return env stages 0)
    (hbg : h0.flags.BACKGROUND = false) :
    run_script_launch env hs h0 s
      = .ok { s with pid_queue := [],
                     trace := s.trace ++ stages_events env stages 0 ++
                       (s.pid_queue ++ forked_pids env stages.length 0).map
                         (fun p => Event.waitpid p false) } := by
  obtain ⟨heq, hty, he⟩ := hp
  have hrun := run_script_stages_eq env stages 0 s eoc rest hty he (by simpa using hf) hcd
  simp [run_script_launch, heq, hrun, hbg, run_script_wait_eq, destroy_queue]

theorem run_script_launch_bg (env : Env) (hs stages : List CommandHolder)
    (eoc : CommandHolder) (rest : List CommandHolder) (h0 : CommandHolder) (s : Shell) (n : Nat)
    (hp : is_pipeline hs stages eoc rest)
    (hn : stages.length = n + 1)
    (hf : ∀ m, m < stages.length → env.fork m ≠ 0)
    (hcd : stages_return env stages 0)
    (hbg : h0.flags.BACKGROUND = true) (hq : s.pid_queue = []) :
    run_script_launch env hs h0 s
      = .ok { job_q := s.job_q ++
                [{ job_id := s.job_number, pid_queue := forked_pids env (n + 1) 0,
                   pid := env.fork n, cmd := env.command_string }],
              pid_queue := forked_pids env (n + 1) 0,
              job_number := wrap32 (s.job_number + 1),
              booted := s.booted,
              trace := s.trace ++ stages_events env stages 0 ++
                job_started_notification s.job_number (env.fork n) env.command_string } := by
  obtain ⟨heq, hty, he⟩ := hp
  have hrun := run_script_stages_eq env stages 0 s eoc rest hty he (by simpa using hf) hcd
  have hlast := forked_pids_getLast env n 0
  simp only [Nat.zero_add] at hlast
  simp [run_script_launch, heq, hrun, hbg, hq, hn, peek_back, hlast, push_back,
    print_job_bg_start, print_job, emit, job_started_notification]

theorem run_script_launch_inv (env : Env) (hs : List CommandHolder) (h0 : CommandHolder)
    (s s1 : Shell) (hrun : run_script_launch env hs h0 s = .ok s1) (hq : s.pid_queue = []) :
    ∃ stages eoc rest, is_pipeline hs stages eoc rest ∧
      (∀ m, m < stages.length → env.fork m ≠ 0) ∧
      stages_return env stages 0 ∧
      (h0.flags.BACKGROUND = true → stages ≠ []) := by
  cases hst : run_script_stages env hs 0 s with
  | error e => simp [run_script_launch, hst] at hrun
  | ok s3 =>
    obtain ⟨stages, eoc, rest, hp, hf, hcd⟩ := run_script_stages_inv env hs 0 s s3 hst
    have hf2 : ∀ m, m < stages.length → env.fork m ≠ 0 := by simpa using hf
    refine ⟨stages, eoc, rest, hp, hf2, hcd, ?_⟩
    intro hbg hnil
    have hrun2 := run_script_stages_eq env stages 0 s eoc rest hp.2.1 hp.2.2 hf hcd
    rw [← hp.1, hst] at hrun2
    injection hrun2 with hrun2
    subst hnil
    simp [run_script_launch, hst, hbg, hrun2, hq, forked_pids, peek_back] at hrun

theorem run_script_launch_no_underflow (env : Env) (hs : List CommandHolder)
    (h0 : CommandHolder) (s : Shell) (hq : s.pid_queue = [])
    (hst : h0.flags.BACKGROUND = true → ∀ h ∈ hs.head?, get_command_holder_type h ≠ .EOC) :
    run_script_launch env hs h0 s ≠ .error (.fault .underflow) := by
  cases hrun : run_script_stages env hs 0 s with
  | error e =>
    have := run_script_stages_no_underflow env hs 0 s
    rw [hrun] at this
    simpa [run_script_launch, hrun] using this
  | ok s3 =>
    obtain ⟨stages, eoc, rest, hp, hf, hcd⟩ := run_script_stages_inv env hs 0 s s3 hrun
    have hf2 : ∀ m, m < stages.length → env.fork m ≠ 0 := by simpa using hf
    cases hbg : h0.flags.BACKGROUND with
    | false => rw [run_script_launch_fg env hs stages eoc rest h0 s hp hf2 hcd hbg]; simp
    | true =>
      cases stages with
      | nil =>
        have := hst hbg eoc (by simp [hp.1])
        exact absurd hp.2.2 this
      | cons h stages =>
        rw [run_script_launch_bg env hs (h :: stages) eoc rest h0 s stages.length hp rfl hf2
          hcd hbg hq]
        simp

/-! ## Lemmas: what the traces contain -/

theorem new_events_append (s : Shell) (evs : List Event) (q : List Job) (pq : List pid_t)
    (jn : Int) (b : Bool) :
    new_events s { job_q := q, pid_queue := pq, job_number := jn, booted := b,
                   trace := s.trace ++ evs } = evs := by
  simp [new_events]

theorem stage_events_builder (new_pwd : Option String) (holder : CommandHolder) (i : Int)
    (p : pid_t) :
    ∀ e ∈ stage_events new_pwd holder i p, is_builder_event e = true := by
  intro e he
  simp only [stage_events, List.mem_append] at he
  rcases he with ((he | he) | he) | he
  · split_ifs at he <;> simp at he; subst he; rfl
  · simp at he; subst he; rfl
  · split_ifs at he <;> simp at he; subst he; rfl
  · cases hc : holder.cmd with
    | cd c =>
      rw [hc] at he
      cases hd : c.dir with
      | none =>
        simp [parent_command_events, hd] at he
        subst he; rfl
      | some dir =>
        cases new_pwd with
        | none =>
          simp [parent_command_events, hd] at he
          subst he; rfl
        | some pwd =>
          simp [parent_command_events, hd] at he
          rcases he with rfl | rfl <;> rfl
    | exportc c => rw [hc] at he; simp [parent_command_events] at he; subst he; rfl
    | _ => rw [hc] at he; simp [parent_command_events] at he

theorem stages_events_builder (env : Env) (stages : List CommandHolder) :
    ∀ k, ∀ e ∈ stages_events env stages k, is_builder_event e = true := by
  induction stages with
  | nil => intro k e he; simp [stages_events] at he
  | cons h stages ih =>
    intro k e he
    simp only [stages_events, List.mem_append] at he
    rcases he with he | he
    · exact stage_events_builder _ _ _ _ e he
    · exact ih _ e he

theorem stage_events_forks (new_pwd : Option String) (holder : CommandHolder) (i : Int)
    (p : pid_t) :
    (stage_events new_pwd holder i p).filterMap fork_of = [p] := by
  have hc : (parent_command_events new_pwd holder.cmd).filterMap fork_of = [] := by
    apply List.filterMap_eq_nil_iff.2
    intro e he
    have hb := stage_events_builder new_pwd holder i p e
      (by simp only [stage_events, List.mem_append]; exact Or.inr he)
    cases e <;> simp_all [is_builder_event, fork_of]
    cases hcmd : holder.cmd with
    | cd c =>
      rw [hcmd] at he
      cases hd : c.dir <;> cases new_pwd <;> simp [parent_command_events, hd] at he
    | exportc c => rw [hcmd] at he; simp [parent_command_events] at he
    | _ => rw [hcmd] at he; simp [parent_command_events] at he
  cases hout : holder.flags.PIPE_OUT <;> simp [stage_events, hout, hc, fork_of]

theorem stages_events_forks (env : Env) (stages : List CommandHolder) :
    ∀ k, (stages_events env stages k).filterMap fork_of = forked_pids env stages.length k := by
  induction stages with
  | nil => intro k; rfl
  | cons h stages ih =>
    intro k
    simp [stages_events, stage_events_forks, ih, forked_pids]

theorem reaper_events_reaper (w : pid_t → Int) (T : List Job) :
    ∀ e ∈ reaper_events w T, is_reaper_event e = true := by
  intro e he
  simp only [reaper_events, List.mem_flatMap] at he
  obtain ⟨j, _, he⟩ := he
  simp only [reaper_job_events, List.mem_append, List.mem_map] at he
  rcases he with ⟨p, _, rfl⟩ | he
  · rfl
  · split_ifs at he
    · simp only [job_complete_notification, List.mem_cons, List.mem_singleton,
        List.not_mem_nil, or_false] at he
      rcases he with rfl | rfl | rfl <;> simp [is_reaper_event]
    · simp at he

theorem reaper_events_waits (w : pid_t → Int) (T : List Job) :
    (reaper_events w T).filterMap nonblocking_wait_of = T.flatMap (fun j => j.pid_queue) := by
  induction T with
  | nil => rfl
  | cons j T ih =>
    have hw : (j.pid_queue.map (fun p => Event.waitpid p true)).filterMap nonblocking_wait_of
        = j.pid_queue := by
      induction j.pid_queue with
      | nil => rfl
      | cons p ps ihp => simp [nonblocking_wait_of] at ihp ⊢; exact ihp
    simp only [reaper_events] at ih
    simp only [reaper_events, List.flatMap_cons, List.filterMap_append, ih, reaper_job_events, hw]
    split_ifs <;> simp [job_complete_notification, nonblocking_wait_of]

theorem filterMap_eq_nil_of_forall {α β : Type} (f : α → Option β) (l : List α)
    (h : ∀ e ∈ l, f e = none) : l.filterMap f = [] := by
  induction l with
  | nil => rfl
  | cons a l ih =>
    have ha := h a (List.mem_cons_self _ _)
    simp [List.filterMap_cons, ha, ih (fun e he => h e (List.mem_cons_of_mem _ he))]

theorem surviving_jobs_nonempty (w : pid_t → Int) (T : List Job) :
    queues_nonempty (surviving_jobs w T) := by
  intro j hj
  simp only [surviving_jobs, List.mem_filter] at hj
  intro h
  simp [h] at hj

theorem surviving_jobs_ids (w : pid_t → Int) (T : List Job) :
    ((surviving_jobs w T).map (fun j => j.job_id)).Sublist (T.map (fun j => j.job_id)) := by
  have h1 : ((surviving_jobs w T).map (fun j => j.job_id)).Sublist
      ((T.map (surviving_job w)).map (fun j => j.job_id)) :=
    List.Sublist.map _ (List.filter_sublist _)
  simpa [surviving_job, Function.comp_def] using h1

theorem table_at_entry_sublist (s : Shell) : (table_at_entry s).Sublist s.job_q := by
  cases hb : s.booted <;> simp [table_at_entry, hb]

theorem table_at_entry_nonempty (s : Shell) (h : queues_nonempty s.job_q) :
    queues_nonempty (table_at_entry s) :=
  fun j hj => h j ((table_at_entry_sublist s).subset hj)


theorem reaper_event_kind (e : Event) (h : is_reaper_event e = true) :
    blocking_wait_of e = none ∧ fork_of e = none ∧ e ≠ .end_main_loop ∧
      e ≠ .printf "Background job started: " := by
  cases e with
  | waitpid p b => cases b <;> simp_all [is_reaper_event, blocking_wait_of, fork_of]
  | printf text =>
    simp only [is_reaper_event, decide_eq_true_eq] at h
    subst h
    exact ⟨rfl, rfl, by simp, by decide⟩
  | _ => simp_all [is_reaper_event, blocking_wait_of, fork_of]

theorem builder_event_kind (e : Event) (h : is_builder_event e = true) :
    blocking_wait_of e = none ∧ nonblocking_wait_of e = none ∧ job_line_of e = none ∧
      e ≠ .end_main_loop ∧ e ≠ .printf "Background job started: " ∧
      (∀ p b, e ≠ .waitpid p b) := by
  cases e <;>
    simp_all [is_builder_event, blocking_wait_of, nonblocking_wait_of, job_line_of]

theorem new_events_of_trace (s s1 : Shell) (evs : List Event)
    (h : s1.trace = s.trace ++ evs) : new_events s s1 = evs := by
  simp [new_events, h]

theorem wrap32_succ (x : Int) (hlo : -2147483648 ≤ x) (hhi : x < 2147483647) :
    wrap32 (x + 1) = x + 1 := by
  unfold wrap32
  omega

theorem blocking_waits_of_map (pids : List pid_t) :
    (pids.map (fun p => Event.waitpid p false)).filterMap blocking_wait_of = pids := by
  induction pids with
  | nil => rfl
  | cons p pids ih => simp [blocking_wait_of] at ih ⊢; exact ih
/-! ## Lemmas: the three ways `run_script` returns -/

theorem run_script_some_launch (env : Env) (hs stages : List CommandHolder)
    (eoc : CommandHolder) (rest : List CommandHolder) (s : Shell)
    (hne : queues_nonempty (table_at_entry s))
    (hp : is_pipeline hs stages eoc rest) (hx : is_exit_sequence hs = false) :
    ∃ h0 t, hs = h0 :: t ∧ h0.flags.BACKGROUND = is_background hs ∧
      run_script env (some hs) s
        = run_script_launch env hs h0 (reaped_state env.waitpid_nohang s) := by
  rw [run_script_some env hs s hne]
  match hs, hp, hx with
  | [], hp, _ => exact absurd hp.1 (by simp)
  | [h0], hp, _ =>
    refine ⟨h0, [], rfl, rfl, ?_⟩
    have hE : get_command_holder_type h0 ≠ .EXIT := by
      obtain ⟨heq, _, he⟩ := hp
      cases stages with
      | nil =>
        simp only [List.nil_append, List.cons.injEq] at heq
        rw [heq.1, he]; decide
      | cons a stages =>
        simp only [List.cons_append, List.cons.injEq] at heq
        exact absurd heq.2 (by simp)
    simp [hE]
  | h0 :: h1 :: t, _, hx => exact ⟨h0, h1 :: t, rfl, rfl, by simp [hx]⟩

/-- Exact result of `run_script` on `[Exit, EndOfCommands, ...]`. -/
theorem run_script_exit_eq (env : Env) (hs : List CommandHolder) (s : Shell)
    (hne : queues_nonempty (table_at_entry s)) (hx : is_exit_sequence hs = true) :
    run_script env (some hs) s
      = .ok { job_q := surviving_jobs env.waitpid_nohang (table_at_entry s),
              pid_queue := [],
              job_number := s.job_number,
              booted := true,
              trace := s.trace ++ reaper_events env.waitpid_nohang (table_at_entry s) ++
                [Event.end_main_loop] } := by
  rw [run_script_some env hs s hne]
  match hs, hx with
  | [], hx => simp [is_exit_sequence] at hx
  | [h0], hx => simp [is_exit_sequence] at hx
  | h0 :: h1 :: t, hx => simp [hx, end_main_loop, emit, reaped_state]

/-- Exact result of `run_script` on a foreground pipeline. -/
theorem run_script_fg_eq (env : Env) (hs stages : List CommandHolder)
    (eoc : CommandHolder) (rest : List CommandHolder) (s : Shell)
    (hne : queues_nonempty (table_at_entry s))
    (hp : is_pipeline hs stages eoc rest) (hx : is_exit_sequence hs = false)
    (hbg : is_background hs = false)
    (hf : ∀ m, m < stages.length → env.fork m ≠ 0)
    (hcd : stages_return env stages 0) :
    run_script env (some hs) s
      = .ok { job_q := surviving_jobs env.waitpid_nohang (table_at_entry s),
              pid_queue := [],
              job_number := s.job_number,
              booted := true,
              trace := s.trace ++ reaper_events env.waitpid_nohang (table_at_entry s) ++
                stages_events env stages 0 ++
                (forked_pids env stages.length 0).map (fun p => Event.waitpid p false) } := by
  obtain ⟨h0, t, _, hb, hrun⟩ := run_script_some_launch env hs stages eoc rest s hne hp hx
  rw [hrun, run_script_launch_fg env hs stages eoc rest h0 _ hp hf hcd (hb.trans hbg)]
  simp [reaped_state]

/-- Exact result of `run_script` on a background pipeline with `n + 1` stages. -/
theorem run_script_bg_eq (env : Env) (hs stages : List CommandHolder)
    (eoc : CommandHolder) (rest : List CommandHolder) (s : Shell) (n : Nat)
    (hne : queues_nonempty (table_at_entry s))
    (hp : is_pipeline hs stages eoc rest) (hx : is_exit_sequence hs = false)
    (hbg : is_background hs = true) (hn : stages.length = n + 1)
    (hf : ∀ m, m < stages.length → env.fork m ≠ 0)
    (hcd : stages_return env stages 0) :
    run_script env (some hs) s
      = .ok { job_q := surviving_jobs env.waitpid_nohang (table_at_entry s) ++
                [{ job_id := s.job_number, pid_queue := forked_pids env (n + 1) 0,
                   pid := env.fork n, cmd := env.command_string }],
              pid_queue := forked_pids env (n + 1) 0,
              job_number := wrap32 (s.job_number + 1),
              booted := true,
              trace := s.trace ++ reaper_events env.waitpid_nohang (table_at_entry s) ++
                stages_events env stages 0 ++
                job_started_notification s.job_number (env.fork n) env.command_string } := by
  obtain ⟨h0, t, _, hb, hrun⟩ := run_script_some_launch env hs stages eoc rest s hne hp hx
  rw [hrun, run_script_launch_bg env hs stages eoc rest h0 _ n hp hn hf hcd (hb.trans hbg) rfl]
  simp [reaped_state]

/-- Every returning call of `run_script` on a non-`NULL` sequence is one of the
three cases above. -/
theorem run_script_inv (env : Env) (hs : List CommandHolder) (s s1 : Shell)
    (hne : queues_nonempty (table_at_entry s))
    (hrun : run_script env (some hs) s = .ok s1) :
    is_exit_sequence hs = true ∨
      (is_exit_sequence hs = false ∧
        ∃ stages eoc rest, is_pipeline hs stages eoc rest ∧
          (∀ m, m < stages.length → env.fork m ≠ 0) ∧
          stages_return env stages 0 ∧
          (is_background hs = false ∨
            (is_background hs = true ∧ ∃ n, stages.length = n + 1))) := by
  cases hx : is_exit_sequence hs with
  | true => exact Or.inl rfl
  | false =>
    refine Or.inr ⟨rfl, ?_⟩
    rw [run_script_some env hs s hne] at hrun
    have key : ∀ h0 t, hs = h0 :: t →
        run_script_launch env hs h0 (reaped_state env.waitpid_nohang s) = .ok s1 →
        ∃ stages eoc rest, is_pipeline hs stages eoc rest ∧
          (∀ m, m < stages.length → env.fork m ≠ 0) ∧
          stages_return env stages 0 ∧
          (is_background hs = false ∨
            (is_background hs = true ∧ ∃ n, stages.length = n + 1)) := by
      intro h0 t heq hl
      obtain ⟨stages, eoc, rest, hp, hf, hcd, hst⟩ :=
        run_script_launch_inv env hs h0 _ s1 hl rfl
      refine ⟨stages, eoc, rest, hp, hf, hcd, ?_⟩
      have hb : h0.flags.BACKGROUND = is_background hs := by rw [heq]; rfl
      cases hbg : is_background hs with
      | false => exact Or.inl rfl
      | true =>
        refine Or.inr ⟨rfl, ?_⟩
        have hne2 := hst (hb.trans hbg)
        cases stages with
        | nil => exact absurd rfl hne2
        | cons a stages => exact ⟨stages.length, rfl⟩
    match hs, hx, hrun, key with
    | [], _, hrun, _ => simp at hrun
    | [h0], _, hrun, key =>
      by_cases hE : get_command_holder_type h0 = .EXIT
      · simp [hE] at hrun
      · simp only [hE, if_false] at hrun
        exact key h0 [] rfl hrun
    | h0 :: h1 :: t, hx, hrun, key =>
      simp only [hx, Bool.false_eq_true, if_false] at hrun
      exact key h0 (h1 :: t) rfl hrun

/-- The job table after any returning call keeps every queue non-empty. -/
theorem run_script_preserves (env : Env) (holders : Option (List CommandHolder))
    (s s1 : Shell) (hI : queues_nonempty s.job_q)
    (hrun : run_script env holders s = .ok s1) :
    queues_nonempty s1.job_q ∧ s1.booted = true := by
  have hne := table_at_entry_nonempty s hI
  cases holders with
  | none =>
    rw [run_script_none] at hrun
    injection hrun with hrun
    subst hrun
    exact ⟨hne, rfl⟩
  | some hs =>
    rcases run_script_inv env hs s s1 hne hrun with
      hx | ⟨hx, stages, eoc, rest, hp, hf, hcd, hb⟩
    · rw [run_script_exit_eq env hs s hne hx] at hrun
      injection hrun with hrun
      subst hrun
      exact ⟨surviving_jobs_nonempty _ _, rfl⟩
    · rcases hb with hbg | ⟨hbg, n, hn⟩
      · rw [run_script_fg_eq env hs stages eoc rest s hne hp hx hbg hf hcd] at hrun
        injection hrun with hrun
        subst hrun
        exact ⟨surviving_jobs_nonempty _ _, rfl⟩
      · rw [run_script_bg_eq env hs stages eoc rest s n hne hp hx hbg hn hf hcd] at hrun
        injection hrun with hrun
        subst hrun
        refine ⟨?_, rfl⟩
        intro j hj
        simp only [List.mem_append, List.mem_singleton] at hj
        rcases hj with hj | rfl
        · exact surviving_jobs_nonempty _ _ j hj
        · simp [forked_pids]

/-- No call of `run_script` underflows a queue when every table queue is
non-empty and a background sequence has a stage. -/
theorem run_script_no_underflow (env : Env) (holders : Option (List CommandHolder))
    (s : Shell) (hI : queues_nonempty s.job_q)
    (hst : ∀ hs, holders = some hs → background_has_stage hs) :
    run_script env holders s ≠ .error (.fault .underflow) := by
  have hne := table_at_entry_nonempty s hI
  cases holders with
  | none => rw [run_script_none]; simp
  | some hs =>
    have hb := hst hs rfl
    rw [run_script_some env hs s hne]
    match hs, hb with
    | [], _ => simp
    | [h0], hb =>
      by_cases hE : get_command_holder_type h0 = .EXIT
      · simp [hE]
      · simp only [hE, if_false]
        apply run_script_launch_no_underflow _ _ _ _ rfl
        intro hbg h hh
        simp only [List.head?_cons, Option.mem_def, Option.some.injEq] at hh
        subst hh
        exact hb hbg
    | h0 :: h1 :: t, hb =>
      by_cases hx : is_exit_sequence (h0 :: h1 :: t) = true
      · simp [hx]
      · simp only [hx, if_false]
        apply run_script_launch_no_underflow _ _ _ _ rfl
        intro hbg h hh
        simp only [List.head?_cons, Option.mem_def, Option.some.injEq] at hh
        subst hh
        exact hb hbg

theorem run_session_append (pre post : List Call) :
    ∀ s, run_session (pre ++ post) s = (run_session pre s >>= run_session post) := by
  induction pre with
  | nil => intro s; simp [run_session]
  | cons c pre ih =>
    intro s
    simp only [List.cons_append, run_session]
    cases run_script c.env c.holders s with
    | error e => simp
    | ok v => simp [ih]


theorem reaper_pass_eq (w : pid_t → Int) (s : Shell)
    (hne : queues_nonempty (table_at_entry s)) :
    check_jobs_bg_status w (entry_state s) = .ok (reaped_state w s) :=
  check_jobs_bg_status_eq w (entry_state s) hne

theorem range_map_fork (env : Env) (n : Nat) :
    forked_pids env n 0 = (List.range n).map env.fork := by
  rw [forked_pids_eq_map]
  simp
/-! ## Lemmas: sessions -/

theorem run_session_snoc (pre : List Call) (c : Call) (s0 s : Shell)
    (h : run_session (pre ++ [c]) s0 = .ok s) :
    ∃ sp, run_session pre s0 = .ok sp ∧ run_script c.env c.holders sp = .ok s := by
  rw [run_session_append] at h
  cases hp : run_session pre s0 with
  | error e => rw [hp] at h; simp at h
  | ok sp =>
    rw [hp] at h
    simp only [bind_ok_eq, run_session] at h
    cases hc : run_script c.env c.holders sp with
    | error e => rw [hc] at h; simp at h
    | ok v =>
      rw [hc] at h
      simp only [bind_ok_eq] at h
      injection h with h
      subst h
      exact ⟨sp, rfl, hc⟩

theorem run_session_preserves (calls : List Call) :
    ∀ s0 s, queues_nonempty s0.job_q → run_session calls s0 = .ok s →
      queues_nonempty s.job_q := by
  induction calls with
  | nil =>
    intro s0 s h0 h
    simp only [run_session] at h
    injection h with h
    subst h
    exact h0
  | cons c calls ih =>
    intro s0 s h0 h
    simp only [run_session] at h
    cases hc : run_script c.env c.holders s0 with
    | error e => rw [hc] at h; simp at h
    | ok v =>
      rw [hc] at h
      exact ih v s (run_script_preserves c.env c.holders s0 v h0 hc).1 h

theorem run_session_no_underflow (calls : List Call) :
    ∀ s0, queues_nonempty s0.job_q →
      (∀ c ∈ calls, ∀ hs, c.holders = some hs → background_has_stage hs) →
      run_session calls s0 ≠ .error (.fault .underflow) := by
  induction calls with
  | nil => intro s0 _ _; simp [run_session]
  | cons c calls ih =>
    intro s0 h0 hst
    simp only [run_session]
    cases hc : run_script c.env c.holders s0 with
    | error e =>
      simp only [bind_error_eq]
      intro he
      injection he with he
      rw [he] at hc
      exact run_script_no_underflow c.env c.holders s0 h0
        (hst c (List.mem_cons_self _ _)) hc
    | ok v =>
      exact ih v (run_script_preserves c.env c.holders s0 v h0 hc).1
        (fun x hx => hst x (List.mem_cons_of_mem _ hx))

theorem launches_snoc (pre : List Call) (c : Call) :
    launches (pre ++ [c]) = launches pre + (if is_background_launch c then 1 else 0) := by
  unfold launches
  rw [List.filter_append, List.length_append]
  cases h : is_background_launch c <;> simp [List.filter_cons, h]

/-- What one returning call does to the job ids: a background launch appends one
record carrying the counter and wraps the counter up by one; any other call keeps
the counter and only removes records. -/
theorem run_script_ids (c : Call) (s s1 : Shell) (hI : queues_nonempty s.job_q)
    (hrun : run_script c.env c.holders s = .ok s1) :
    (is_background_launch c = true →
        s1.job_number = wrap32 (s.job_number + 1) ∧
        ∃ front pid tr,
          s1.job_q = front ++ [{ job_id := s.job_number, pid_queue := s1.pid_queue,
                                 pid := pid, cmd := c.env.command_string }] ∧
          (front.map (fun j => j.job_id)).Sublist (s.job_q.map (fun j => j.job_id)) ∧
          s1.trace = tr ++ job_started_notification s.job_number pid c.env.command_string) ∧
      (is_background_launch c = false →
        s1.job_number = s.job_number ∧
        (s1.job_q.map (fun j => j.job_id)).Sublist (s.job_q.map (fun j => j.job_id))) := by
  have hne := table_at_entry_nonempty s hI
  have hsub : ((surviving_jobs c.env.waitpid_nohang (table_at_entry s)).map
      (fun j => j.job_id)).Sublist (s.job_q.map (fun j => j.job_id)) :=
    (surviving_jobs_ids _ _).trans (List.Sublist.map _ (table_at_entry_sublist s))
  cases hh : c.holders with
  | none =>
    rw [hh, run_script_none] at hrun
    injection hrun with hrun
    subst hrun
    refine ⟨fun hb => ?_, fun _ => ⟨rfl, List.Sublist.map _ (table_at_entry_sublist s)⟩⟩
    simp [is_background_launch, hh] at hb
  | some hs =>
    rw [hh] at hrun
    rcases run_script_inv c.env hs s s1 hne hrun with
      hx | ⟨hx, stages, eoc, rest, hp, hf, hcd, hb⟩
    · rw [run_script_exit_eq c.env hs s hne hx] at hrun
      injection hrun with hrun
      subst hrun
      refine ⟨fun hb => ?_, fun _ => ⟨rfl, hsub⟩⟩
      simp [is_background_launch, hh, hx] at hb
    · rcases hb with hbg | ⟨hbg, n, hn⟩
      · rw [run_script_fg_eq c.env hs stages eoc rest s hne hp hx hbg hf hcd] at hrun
        injection hrun with hrun
        subst hrun
        refine ⟨fun hb => ?_, fun _ => ⟨rfl, hsub⟩⟩
        simp [is_background_launch, hh, hx, hbg] at hb
      · rw [run_script_bg_eq c.env hs stages eoc rest s n hne hp hx hbg hn hf hcd] at hrun
        injection hrun with hrun
        subst hrun
        refine ⟨fun _ => ⟨rfl, _, _, _, rfl, hsub, rfl⟩, fun hb => ?_⟩
        simp [is_background_launch, hh, hx, hbg] at hb

/-- Along a returning session with fewer than `2^31 - 1` background launches the
counter is the number of launches plus one and the ids in the table are a
sub-list of `1, ..., launches`. -/
theorem run_session_ids (calls : List Call) :
    ∀ s, launches calls < 2147483647 → run_session calls initial_shell = .ok s →
      s.job_number = (launches calls : Int) + 1 ∧ queues_nonempty s.job_q ∧
      (s.job_q.map (fun j => j.job_id)).Sublist
        ((List.range (launches calls)).map (fun (k : Nat) => (k : Int) + 1)) := by
  induction calls using List.reverseRecOn with
  | nil =>
    intro s _ h
    simp only [run_session] at h
    injection h with h
    subst h
    refine ⟨by simp [launches, initial_shell], fun j hj => ?_, by simp [initial_shell]⟩
    simp [initial_shell] at hj
  | append_singleton pre c ih =>
    intro s hb hrun
    obtain ⟨sp, hpre, hc⟩ := run_session_snoc pre c initial_shell s hrun
    rw [launches_snoc] at hb ⊢
    obtain ⟨hnum, hI, hsub⟩ := ih sp (by omega) hpre
    have hI1 := (run_script_preserves c.env c.holders sp s hI hc).1
    have hids := run_script_ids c sp s hI hc
    cases hl : is_background_launch c with
    | true =>
      rw [hl] at hb
      simp only [if_true] at hb ⊢
      obtain ⟨hn1, front, pid, tr, hq, hfs, _⟩ := hids.1 hl
      refine ⟨?_, hI1, ?_⟩
      · rw [hn1, hnum, wrap32_succ _ (by omega) (by omega)]
        push_cast
        ring
      · rw [hq, List.map_append, List.range_succ, List.map_append]
        refine List.Sublist.append (hfs.trans hsub) ?_
        simp [hnum]
    | false =>
      simp only [hl, Bool.false_eq_true, if_false, Nat.add_zero]
      obtain ⟨hn1, hs1⟩ := hids.2 hl
      exact ⟨hn1.trans hnum, hI1, hs1.trans hsub⟩

/-! ## Lemmas: where every run of `create_process` ends -/

theorem quiet_refl (s : Shell) : quiet s s := ⟨[], by simp, by simp⟩

theorem quiet_trans {a b c : Shell} (h1 : quiet a b) (h2 : quiet b c) : quiet a c := by
  obtain ⟨e1, ht1, hq1⟩ := h1
  obtain ⟨e2, ht2, hq2⟩ := h2
  refine ⟨e1 ++ e2, by rw [ht2, ht1, List.append_assoc], ?_⟩
  intro e he
  rcases List.mem_append.1 he with he | he
  · exact hq1 e he
  · exact hq2 e he

theorem quiet_emit (s : Shell) (e : Event) (h : is_pipe_op e = false) : quiet s (emit s e) :=
  ⟨[e], rfl, by intro x hx; simp only [List.mem_singleton] at hx; subst hx; exact h⟩

theorem quiet_of_trace (s sf : Shell) (evs : List Event) (ht : sf.trace = s.trace ++ evs)
    (hq : ∀ e ∈ evs, is_pipe_op e = false) : quiet s sf := ⟨evs, ht, hq⟩

theorem run_echo_quiet (cmd : EchoCommand) (s : Shell) : quiet s (run_echo cmd s) := by
  have hfold : ∀ (args : List String) (s0 : Shell),
      quiet s0 (args.foldl (fun acc str => emit acc (.printf (str ++ " "))) s0) := by
    intro args
    induction args with
    | nil => intro s0; exact quiet_refl s0
    | cons a args ih =>
      intro s0
      exact quiet_trans (quiet_emit s0 (.printf (a ++ " ")) rfl) (ih _)
  exact quiet_trans (hfold cmd.args s)
    (quiet_trans (quiet_emit _ (.printf "\n") rfl) (quiet_emit _ .fflush rfl))

theorem listing_events_quiet (T : List Job) : ∀ e ∈ listing_events T, is_pipe_op e = false := by
  intro e he
  simp only [listing_events, List.mem_flatMap] at he
  obtain ⟨j, _, he⟩ := he
  simp only [List.mem_cons, List.mem_singleton, List.not_mem_nil, or_false] at he
  rcases he with rfl | rfl <;> rfl

/-- The child's command always ends, in `exit(0)` or in the program it executes,
without touching a pipe slot. -/
theorem child_run_command_final (x : Bool) (cmd : Command) (s : Shell) :
    ∃ sf, final_state
        (child_run_command x cmd s >>= fun s5 =>
          (Except.error (Err.exited 0 s5) : Except Err Shell)) = some sf ∧
      quiet s sf := by
  cases cmd with
  | generic c =>
    cases x with
    | true =>
      exact ⟨emit s (.execvp c.args),
        by simp [child_run_command, run_generic, final_state],
        quiet_emit s (.execvp c.args) rfl⟩
    | false =>
      exact ⟨emit (emit s (.execvp c.args)) (.perror "ERROR: Failed to execute program"),
        by simp [child_run_command, run_generic, final_state],
        quiet_trans (quiet_emit s (.execvp c.args) rfl)
          (quiet_emit _ (.perror "ERROR: Failed to execute program") rfl)⟩
  | echo c =>
    exact ⟨run_echo c s, by simp [child_run_command, final_state], run_echo_quiet c s⟩
  | pwd =>
    exact ⟨run_pwd s, by simp [child_run_command, final_state],
      quiet_trans (quiet_emit s .getcwd_printf rfl) (quiet_emit _ .fflush rfl)⟩
  | jobs =>
    refine ⟨{ s with trace := s.trace ++ listing_events s.job_q ++ [Event.fflush] },
      by simp [child_run_command, run_jobs_eq, final_state], ?_⟩
    refine quiet_of_trace s _ (listing_events s.job_q ++ [Event.fflush])
      (by simp [List.append_assoc]) ?_
    intro e he
    rcases List.mem_append.1 he with he | he
    · exact listing_events_quiet _ e he
    · simp only [List.mem_singleton] at he
      subst he
      rfl
  | exportc c => exact ⟨s, by simp [child_run_command, final_state], quiet_refl s⟩
  | cd c => exact ⟨s, by simp [child_run_command, final_state], quiet_refl s⟩
  | kill c => exact ⟨s, by simp [child_run_command, final_state], quiet_refl s⟩
  | exit => exact ⟨s, by simp [child_run_command, final_state], quiet_refl s⟩
  | eoc => exact ⟨s, by simp [child_run_command, final_state], quiet_refl s⟩

theorem quiet_fopen (s : Shell) (f m : String) (t : Nat) :
    quiet s (emit s (.fopen_dup2 f m t)) := quiet_emit s (.fopen_dup2 f m t) rfl

theorem quiet_fopen_twice (s : Shell) (f m : String) (t : Nat) (f2 m2 : String) (t2 : Nat) :
    quiet s (emit (emit s (.fopen_dup2 f m t)) (.fopen_dup2 f2 m2 t2)) :=
  quiet_trans (quiet_fopen s f m t) (quiet_fopen _ f2 m2 t2)

/-- The redirections return or kill the child, without touching a pipe slot. -/
theorem create_process_redirect_cases (fo : String → String → Bool) (holder : CommandHolder)
    (s : Shell) :
    (∃ s4, create_process_redirect fo holder s = .ok s4 ∧ quiet s s4) ∨
      (∃ sf, create_process_redirect fo holder s = .error (.crashed sf) ∧ quiet s sf) := by
  unfold create_process_redirect
  simp only []
  split_ifs <;> simp only [pure_eq_ok, bind_ok_eq, bind_error_eq]
  all_goals first
    | exact Or.inl ⟨_, rfl, quiet_refl _⟩
    | exact Or.inl ⟨_, rfl, quiet_fopen _ _ _ _⟩
    | exact Or.inl ⟨_, rfl, quiet_fopen_twice _ _ _ _ _ _ _⟩
    | exact Or.inr ⟨_, rfl, quiet_refl _⟩
    | exact Or.inr ⟨_, rfl, quiet_fopen _ _ _ _⟩

/-- The child branch always ends, and after its pipe wiring touches no pipe slot. -/
theorem create_process_child_final (x : Bool) (fo : String → String → Bool)
    (holder : CommandHolder) (i : Int) (s : Shell) :
    ∃ sf tail, final_state (create_process_child x fo holder i s) = some sf ∧
      sf.trace = s.trace ++
        ((if holder.flags.PIPE_IN then
            [Event.dup2 (read_slot i) 0 0, Event.close (read_slot i) 0] else []) ++
          (if holder.flags.PIPE_OUT then
            [Event.dup2 (write_slot i) 1 1, Event.close (write_slot i) 1] else [])) ++ tail ∧
      ∀ e ∈ tail, is_pipe_op e = false := by
  have key : ∀ s2 : Shell, ∃ sf, final_state
      (create_process_redirect fo holder s2 >>= fun s4 =>
        child_run_command x holder.cmd s4 >>= fun s5 =>
          (Except.error (Err.exited 0 s5) : Except Err Shell)) = some sf ∧ quiet s2 sf := by
    intro s2
    rcases create_process_redirect_cases fo holder s2 with ⟨s4, h4, q4⟩ | ⟨sf, hf, qf⟩
    · obtain ⟨sf, hsf, qsf⟩ := child_run_command_final x holder.cmd s4
      exact ⟨sf, by rw [h4]; exact hsf, quiet_trans q4 qsf⟩
    · exact ⟨sf, by rw [hf]; rfl, qf⟩
  obtain ⟨sf, hsf, evs, ht, hq⟩ := key
    (if holder.flags.PIPE_OUT = true then
      emit (emit
        (if holder.flags.PIPE_IN = true then
          emit (emit s (.dup2 (read_slot i) 0 0)) (.close (read_slot i) 0) else s)
        (.dup2 (write_slot i) 1 1)) (.close (write_slot i) 1)
    else
      (if holder.flags.PIPE_IN = true then
        emit (emit s (.dup2 (read_slot i) 0 0)) (.close (read_slot i) 0) else s))
  refine ⟨sf, evs, hsf, ?_, hq⟩
  rw [ht]
  cases hin : holder.flags.PIPE_IN <;> cases hout : holder.flags.PIPE_OUT <;>
    simp [emit, hin, hout]

/-- Every run of `create_process` ends, in the parent or in the child, having
issued its wiring actions and then no further action on a pipe slot. -/
theorem create_process_final (x : Bool) (fo : String → String → Bool)
    (new_pwd : Option String) (holder : CommandHolder) (i : Int) (p : pid_t) (s : Shell) :
    ∃ sf tail, final_state (create_process x fo new_pwd holder i p s) = some sf ∧
      sf.trace = s.trace ++ wiring_events holder.flags i p ++ tail ∧
      ∀ e ∈ tail, is_pipe_op e = false := by
  by_cases hp : p = 0
  · subst hp
    obtain ⟨sf, tail, hsf, ht, hq⟩ := create_process_child_final x fo holder i
      { (emit (if holder.flags.PIPE_OUT = true then emit s (.pipe (write_slot i)) else s)
            (.fork 0)) with
          pid_queue := push_back
            (emit (if holder.flags.PIPE_OUT = true then emit s (.pipe (write_slot i)) else s)
              (.fork 0)).pid_queue 0 }
    refine ⟨sf, tail, by simpa [create_process] using hsf, ?_, hq⟩
    rw [ht]
    cases hin : holder.flags.PIPE_IN <;> cases hout : holder.flags.PIPE_OUT <;>
      simp [emit, wiring_events, hin, hout]
  · by_cases hcd : cd_returns new_pwd holder.cmd
    · refine ⟨_, parent_command_events new_pwd holder.cmd,
        by rw [create_process_parent x fo new_pwd holder i p s hp hcd]; rfl, ?_, ?_⟩
      · cases hout : holder.flags.PIPE_OUT <;> simp [stage_events, wiring_events, hp, hout]
      · intro e he
        have hb := stage_events_builder new_pwd holder i p e
          (by simp only [stage_events, List.mem_append]; exact Or.inr he)
        cases hc : holder.cmd with
        | cd c =>
          rw [hc] at he
          cases hd : c.dir <;> cases new_pwd <;> simp [parent_command_events, hd] at he
          · subst he; rfl
          · subst he; rfl
          · subst he; rfl
          · rcases he with rfl | rfl <;> rfl
        | exportc c => rw [hc] at he; simp [parent_command_events] at he; subst he; rfl
        | _ => rw [hc] at he; simp [parent_command_events] at he
    · obtain ⟨dir, h⟩ := parent_run_command_crash new_pwd holder.cmd
        (if holder.flags.PIPE_OUT = true then
          emit { (emit (if holder.flags.PIPE_OUT = true then emit s (.pipe (write_slot i))
                    else s) (.fork p)) with
                  pid_queue := push_back
                    (emit (if holder.flags.PIPE_OUT = true then emit s (.pipe (write_slot i))
                      else s) (.fork p)).pid_queue p }
            (.close (write_slot i) 1)
        else
          { (emit (if holder.flags.PIPE_OUT = true then emit s (.pipe (write_slot i)) else s)
                (.fork p)) with
              pid_queue := push_back
                (emit (if holder.flags.PIPE_OUT = true then emit s (.pipe (write_slot i))
                  else s) (.fork p)).pid_queue p }) hcd
      refine ⟨_, [Event.chdir dir], by simp only [create_process, hp, if_false]; rw [h]; rfl,
        ?_, ?_⟩
      · cases hout : holder.flags.PIPE_OUT <;> simp [emit, wiring_events, hp, hout]
      · intro e he
        simp only [List.mem_singleton] at he
        subst he
        rfl

/-! ## Lemmas: repeating one background launch -/

theorem stages_return_of_no_cd (env : Env) (stages : List CommandHolder) (k : Nat)
    (h : ∀ holder ∈ stages, ∀ c, holder.cmd ≠ .cd c) : stages_return env stages k := by
  intro m holder hm c dir hc _
  exact absurd hc (h holder (List.getElem?_mem hm) c)

theorem launches_replicate (c : Call) (h : is_background_launch c = true) :
    ∀ n, launches (List.replicate n c) = n := by
  intro n
  induction n with
  | zero => rfl
  | succ n ih => rw [List.replicate_succ', launches_snoc, ih, h]; rfl

/-- A background pipeline that launches from every reachable state can be
launched any number of times in a row. -/
theorem run_session_replicate (c : Call) (hs stages : List CommandHolder)
    (eoc : CommandHolder) (rest : List CommandHolder) (n1 : Nat)
    (hc : c.holders = some hs)
    (hp : is_pipeline hs stages eoc rest) (hx : is_exit_sequence hs = false)
    (hbg : is_background hs = true) (hn : stages.length = n1 + 1)
    (hf : ∀ m, m < stages.length → c.env.fork m ≠ 0)
    (hcd : stages_return c.env stages 0) :
    ∀ n, ∃ s, run_session (List.replicate n c) initial_shell = .ok s := by
  intro n
  induction n with
  | zero => exact ⟨initial_shell, rfl⟩
  | succ n ih =>
    obtain ⟨s, hs1⟩ := ih
    have hI : queues_nonempty s.job_q :=
      run_session_preserves _ initial_shell s (by intro j hj; simp [initial_shell] at hj) hs1
    have hrun := run_script_bg_eq c.env hs stages eoc rest s n1
      (table_at_entry_nonempty s hI) hp hx hbg hn hf hcd
    rw [← hc] at hrun
    have hstep : run_session (List.replicate (n + 1) c) initial_shell
        = run_script c.env c.holders s := by
      rw [List.replicate_succ', run_session_append, hs1, bind_ok_eq]
      simp only [run_session]
      cases run_script c.env c.holders s <;> rfl
    exact ⟨_, hstep.trans hrun⟩

/-! ## Claims -/

/-- C1: for every job table the shell can hold (each job holds at least one
process handle, as `run_session_preserves` shows of every reachable table) and
every wait oracle, one call of `check_jobs_bg_status` returns, performs
exactly one non-blocking wait per handle held by the jobs of the table (in table
and queue order) and no blocking wait, and leaves the job table equal to the jobs
that keep a running handle, in order, each with `job_id`, `pid` and `cmd` unchanged
and its queue cut down to its running handles in their original order. -/
theorem check_jobs_bg_status_reaps (w : pid_t → Int) (s : Shell)
    (hne : queues_nonempty s.job_q) :
    ∃ s1, check_jobs_bg_status w s = .ok s1 ∧
      s1.job_q =
        (s.job_q.map (fun j =>
          ({ job_id := j.job_id, pid_queue := j.pid_queue.filter (fun p => decide (w p = 0)),
             pid := j.pid, cmd := j.cmd } : Job))).filter
          (fun j => !j.pid_queue.isEmpty) ∧
      (new_events s s1).filterMap nonblocking_wait_of = s.job_q.flatMap (fun j => j.pid_queue) ∧
      (new_events s s1).filterMap blocking_wait_of = [] ∧
      s1.pid_queue = s.pid_queue ∧ s1.job_number = s.job_number := by
  refine ⟨_, check_jobs_bg_status_eq w s hne, rfl, ?_, ?_, rfl, rfl⟩
  · rw [new_events_append, reaper_events_waits]
  · rw [new_events_append]
    apply filterMap_eq_nil_of_forall
    intro e he
    exact (reaper_event_kind e (reaper_events_reaper w s.job_q e he)).1

/-- C1 at a concrete table: job 1 holds 10 and 11, 10 has exited. -/
theorem check_jobs_bg_status_reaps_witness :
    queues_nonempty ex_shell_one_job.job_q ∧
      ∃ s1, check_jobs_bg_status ex_env_running.waitpid_nohang ex_shell_one_job = .ok s1 ∧
        s1.job_q =
          (ex_shell_one_job.job_q.map (fun j =>
            ({ job_id := j.job_id,
               pid_queue := j.pid_queue.filter
                 (fun p => decide (ex_env_running.waitpid_nohang p = 0)),
               pid := j.pid, cmd := j.cmd } : Job))).filter
            (fun j => !j.pid_queue.isEmpty) ∧
        (new_events ex_shell_one_job s1).filterMap nonblocking_wait_of
          = ex_shell_one_job.job_q.flatMap (fun j => j.pid_queue) ∧
        (new_events ex_shell_one_job s1).filterMap blocking_wait_of = [] ∧
        s1.pid_queue = ex_shell_one_job.pid_queue ∧
        s1.job_number = ex_shell_one_job.job_number :=
  have h : queues_nonempty ex_shell_one_job.job_q := by
    intro j hj
    simp only [ex_shell_one_job, List.mem_singleton] at hj
    subst hj
    simp
  ⟨h, check_jobs_bg_status_reaps ex_env_running.waitpid_nohang ex_shell_one_job h⟩

/-- C9, as stated, fails at stage 0 with `PIPE_IN` set: `(0 - 1) % 2` is `-1` in
C, and the child duplicates and closes the read end of slot `-1`, outside the
two-slot array. -/
theorem create_process_read_slot_out_of_range :
    read_slot 0 = -1 ∧
      final_state (create_process true (fun _ _ => true) none ex_stage_pipe_in 0 0 initial_shell)
        = some { job_q := [], pid_queue := [0], job_number := 1, booted := false,
                 trace := [.fork 0, .dup2 (-1) 0 0, .close (-1) 0, .execvp ["cat"]] } :=
  ⟨rfl, rfl⟩

/-- C9 (amended): for every stage index `i ≥ 0`, every flag set, command and fork
result, `create_process` runs to its end (return, exit, exec or kill) having
issued on the pipe slots exactly: one `pipe` on slot `i mod 2` when `PIPE_OUT` is
set; then, in the child, `dup2` and `close` of the read end of the slot
`(i - 1) % 2` when `PIPE_IN` is set and of the write end of slot `i mod 2` when
`PIPE_OUT` is set, and in the parent `close` of the write end of slot `i mod 2`
when `PIPE_OUT` is set. The write slot `i mod 2` is 0 or 1. For every `i ≥ 1` the
read slot is `(i - 1) mod 2`, is 0 or 1, equals the write slot of stage `i - 1`
and differs from the write slot of stage `i`. -/
theorem create_process_pipe_slots (x : Bool) (fo : String → String → Bool)
    (new_pwd : Option String) (holder : CommandHolder) (i : Int) (p : pid_t) (s : Shell)
    (hi : 0 ≤ i) :
    (∃ sf, final_state (create_process x fo new_pwd holder i p s) = some sf ∧
        (new_events s sf).filter is_pipe_op
          = expected_pipe_ops holder.flags (i % 2) (read_slot i) (decide (p = 0)) ∧
        (1 ≤ i → (new_events s sf).filter is_pipe_op
          = expected_pipe_ops holder.flags (i % 2) ((i - 1) % 2) (decide (p = 0)))) ∧
      write_slot i = i % 2 ∧ (i % 2 = 0 ∨ i % 2 = 1) ∧
      (1 ≤ i →
        read_slot i = (i - 1) % 2 ∧ (read_slot i = 0 ∨ read_slot i = 1) ∧
          read_slot i = write_slot (i - 1) ∧ read_slot i ≠ write_slot i) := by
  have hw : write_slot i = i % 2 := write_slot_eq i hi
  refine ⟨?_, hw, by omega, ?_⟩
  · obtain ⟨sf, tail, hsf, ht, hq⟩ := create_process_final x fo new_pwd holder i p s
    have htail : tail.filter is_pipe_op = [] :=
      List.filter_eq_nil_iff.2 (fun e he => by simp [hq e he])
    have hops : (new_events s sf).filter is_pipe_op
        = expected_pipe_ops holder.flags (i % 2) (read_slot i) (decide (p = 0)) := by
      rw [new_events_of_trace s sf _ (by rw [ht, List.append_assoc]), List.filter_append, htail,
        List.append_nil, ← hw]
      by_cases hp : p = 0 <;>
        cases hin : holder.flags.PIPE_IN <;> cases hout : holder.flags.PIPE_OUT <;>
        simp [wiring_events, expected_pipe_ops, hp, hin, hout, List.filter_cons, is_pipe_op]
    exact ⟨sf, hsf, hops, fun h1 => by rw [hops, read_slot_eq i h1]⟩
  · intro h1
    have hr : read_slot i = (i - 1) % 2 := read_slot_eq i h1
    refine ⟨hr, by rw [hr]; omega, rfl, ?_⟩
    rw [hr, hw]
    omega

/-- C9 (amended) at stage 3 of a pipeline, in the child of a middle stage. -/
theorem create_process_pipe_slots_witness :
    (0 : Int) ≤ 3 ∧ (1 : Int) ≤ 3 ∧
      (∃ sf, final_state (create_process true (fun _ _ => true) none ex_stage_middle 3 0
            initial_shell) = some sf ∧
          (new_events initial_shell sf).filter is_pipe_op
            = expected_pipe_ops ex_stage_middle.flags (3 % 2) (read_slot 3)
                (decide ((0 : pid_t) = 0)) ∧
          ((1 : Int) ≤ 3 → (new_events initial_shell sf).filter is_pipe_op
            = expected_pipe_ops ex_stage_middle.flags (3 % 2) ((3 - 1) % 2)
                (decide ((0 : pid_t) = 0)))) ∧
      write_slot 3 = 3 % 2 ∧ ((3 : Int) % 2 = 0 ∨ (3 : Int) % 2 = 1) ∧
      (read_slot 3 = (3 - 1) % 2 ∧ (read_slot 3 = 0 ∨ read_slot 3 = 1) ∧
        read_slot 3 = write_slot (3 - 1) ∧ read_slot 3 ≠ write_slot 3) :=
  ⟨by decide, by decide,
    (create_process_pipe_slots true (fun _ _ => true) none ex_stage_middle 3 0 initial_shell
      (by decide)).1,
    (create_process_pipe_slots true (fun _ _ => true) none ex_stage_middle 3 0 initial_shell
      (by decide)).2.1,
    (create_process_pipe_slots true (fun _ _ => true) none ex_stage_middle 3 0 initial_shell
      (by decide)).2.2.1,
    (create_process_pipe_slots true (fun _ _ => true) none ex_stage_middle 3 0 initial_shell
      (by decide)).2.2.2 (by decide)⟩

/-- C7: for every job table, `run_jobs` returns, prints one line per job in table
order carrying the job's `job_id`, stored `pid` and `cmd`, and leaves the job table
(and every other global) as it was. -/
theorem run_jobs_lists_without_consuming (s : Shell) :
    ∃ s1, run_jobs s = .ok s1 ∧
      s1.job_q = s.job_q ∧ s1.pid_queue = s.pid_queue ∧ s1.job_number = s.job_number ∧
      s1.booted = s.booted ∧
      (new_events s s1).filterMap job_line_of
        = s.job_q.map (fun j => (j.job_id, j.pid, j.cmd)) ∧
      ((new_events s s1).filterMap job_line_of).length = s.job_q.length ∧
      new_events s s1
        = s.job_q.flatMap (fun j => [Event.printf_job j.job_id j.pid j.cmd, Event.fflush])
            ++ [Event.fflush] := by
  have hl : ∀ T : List Job, (listing_events T ++ [Event.fflush]).filterMap job_line_of
      = T.map (fun j => (j.job_id, j.pid, j.cmd)) := by
    intro T
    induction T with
    | nil => rfl
    | cons j T ih =>
      simp only [listing_events, List.flatMap_cons] at ih ⊢
      simp [job_line_of, ih]
  refine ⟨_, run_jobs_eq s, rfl, rfl, rfl, rfl, ?_, ?_, ?_⟩
  · rw [List.append_assoc, new_events_append, hl]
  · rw [List.append_assoc, new_events_append, hl, List.length_map]
  · rw [List.append_assoc, new_events_append]; rfl

/-- C8 fails on the code: `run_kill` for signal 9 and job 1, on a table whose job 1
holds the handles 10 and 11, delivers no signal at all, also when reached through
`parent_run_command` and `create_process`. -/
theorem run_kill_delivers_nothing :
    run_kill { sig := 9, job := 1 } ex_shell_one_job = ex_shell_one_job ∧
      parent_run_command none (.kill { sig := 9, job := 1 }) ex_shell_one_job
        = .ok ex_shell_one_job ∧
      create_process false (fun _ _ => true) none ex_kill 0 77 ex_shell_one_job
        = .ok { ex_shell_one_job with
                  pid_queue := [10, 11, 77],
                  trace := ex_shell_one_job.trace ++ [Event.fork 77] } ∧
      (ex_shell_one_job.trace ++ [Event.fork 77]).filterMap kill_of = [] :=
  ⟨rfl, rfl, rfl, rfl⟩


/-- C5 on the code: after `a | b &` (forks 10 and 11, stored representative pid
11, the pid the start notice and the listing print) both processes exit, and the
completion notice of `check_jobs_bg_status` carries pid 10, the front of the
job's queue, instead of the stored pid 11. -/
theorem check_jobs_bg_status_reports_front_pid :
    run_script ex_env_done (some ex_bg_pipeline) initial_shell = .ok ex_shell_one_job ∧
      check_jobs_bg_status ex_env_done.waitpid_nohang ex_shell_one_job
        = .ok { ex_shell_one_job with
                  job_q := [],
                  trace := ex_shell_one_job.trace ++
                    [.waitpid 10 true, .waitpid 11 true, .printf "Completed: \t",
                     .printf_job 1 10 "a | b &", .fflush] } ∧
      ex_shell_one_job.job_q.map (fun j => (j.job_id, j.pid, j.cmd)) = [(1, 11, "a | b &")] ∧
      ([Event.waitpid 10 true, .waitpid 11 true, .printf "Completed: \t",
          .printf_job 1 10 "a | b &", .fflush].filterMap job_line_of)
        ≠ ex_shell_one_job.job_q.map (fun j => (j.job_id, j.pid, j.cmd)) :=
  ⟨rfl, rfl, rfl, by decide⟩

/-- C2, as stated, fails. `exit` alone is a sequence of one stage, not flagged
background: `run_script` forks nothing and waits for nothing, where the claim
has a blocking wait on the pid of the first fork. And in `cd deep`, when
`getcwd(NULL, 100)` answers `NULL`, the shell is killed inside `run_cd`, after the
fork and before any wait. -/
theorem run_script_foreground_failures :
    (is_pipeline ex_exit_sequence [ex_exit] ex_eoc [] ∧
        is_background ex_exit_sequence = false ∧
        ex_env_running.fork 0 = 20 ∧
        run_script ex_env_running (some ex_exit_sequence) initial_shell
          = .ok { job_q := [], pid_queue := [], job_number := 1, booted := true,
                  trace := [.end_main_loop] }) ∧
      (is_pipeline ex_cd_pipeline [ex_cd ex_flags] ex_eoc [] ∧
        is_background ex_cd_pipeline = false ∧
        is_exit_sequence ex_cd_pipeline = false ∧
        ex_env_long_cwd.fork 0 = 20 ∧
        run_script ex_env_long_cwd (some ex_cd_pipeline) initial_shell
          = .error (.crashed { job_q := [], pid_queue := [20], job_number := 1, booted := true,
                               trace := [.fork 20, .chdir "deep"] })) :=
  ⟨⟨⟨rfl, by decide, rfl⟩, rfl, rfl, rfl⟩, ⟨rfl, by decide, rfl⟩, rfl, rfl, rfl, rfl⟩

/-- C2 (amended): for every foreground sequence of `n ≥ 0` stages closed by the
end-of-commands marker, other than the exit sequence, run in the parent (every
fork returns a non-zero pid) with every parent-side `cd` returning, on a table
the shell can hold: the stage loop leaves the pid queue equal to
`[p_0, ..., p_{n-1}]` in fork order having issued no wait; `run_script` then issues
blocking waits on exactly `p_0, ..., p_{n-1}`, in that order, and returns with the
pid queue empty, the job table exactly as the reaper pass left it, and the job id
counter unchanged. -/
theorem run_script_foreground (env : Env) (hs stages : List CommandHolder)
    (eoc : CommandHolder) (rest : List CommandHolder) (s : Shell)
    (hne : queues_nonempty (table_at_entry s))
    (hp : is_pipeline hs stages eoc rest)
    (hx : is_exit_sequence hs = false)
    (hbg : is_background hs = false)
    (hf : ∀ m, m < stages.length → env.fork m ≠ 0)
    (hcd : stages_return env stages 0) :
    ∃ s2 s3 s4,
      check_jobs_bg_status env.waitpid_nohang (entry_state s) = .ok s2 ∧
      run_script_stages env hs 0 s2 = .ok s3 ∧
      s3.pid_queue = (List.range stages.length).map env.fork ∧
      (new_events s2 s3).filterMap fork_of = (List.range stages.length).map env.fork ∧
      (∀ e ∈ new_events s2 s3, ∀ p b, e ≠ Event.waitpid p b) ∧
      run_script env (some hs) s = .ok s4 ∧
      s4.trace = s3.trace ++
        ((List.range stages.length).map env.fork).map (fun p => Event.waitpid p false) ∧
      (new_events s s4).filterMap blocking_wait_of = (List.range stages.length).map env.fork ∧
      s4.pid_queue = [] ∧
      s4.job_q = s2.job_q ∧
      s4.job_number = s.job_number := by
  have hst := run_script_stages_eq env stages 0 (reaped_state env.waitpid_nohang s) eoc rest
    hp.2.1 hp.2.2 (by simpa using hf) hcd
  rw [← hp.1] at hst
  refine ⟨_, _, _, reaper_pass_eq _ s hne, hst, ?_, ?_, ?_,
    run_script_fg_eq env hs stages eoc rest s hne hp hx hbg hf hcd, ?_, ?_, rfl, rfl, rfl⟩
  · simp [reaped_state, range_map_fork]
  · rw [new_events_append, stages_events_forks, range_map_fork]
  · rw [new_events_append]
    intro e he
    exact (builder_event_kind e (stages_events_builder env stages 0 e he)).2.2.2.2.2
  · simp [reaped_state, range_map_fork]
  · rw [new_events_of_trace s _
      (reaper_events env.waitpid_nohang (table_at_entry s) ++
        (stages_events env stages 0 ++
          (forked_pids env stages.length 0).map (fun p => Event.waitpid p false)))
      (by simp only [List.append_assoc]),
      List.filterMap_append, List.filterMap_append, blocking_waits_of_map, range_map_fork,
      filterMap_eq_nil_of_forall blocking_wait_of _
        (fun e he => (reaper_event_kind e (reaper_events_reaper _ _ e he)).1),
      filterMap_eq_nil_of_forall blocking_wait_of _
        (fun e he => (builder_event_kind e (stages_events_builder env stages 0 e he)).1)]
    rfl

/-- C2 (amended) at a concrete call: `c | d` in the foreground while job 1 is in
the table. -/
theorem run_script_foreground_witness :
    queues_nonempty (table_at_entry ex_shell_one_job) ∧
      is_pipeline ex_fg_pipeline ex_fg_stages ex_eoc [] ∧
      is_exit_sequence ex_fg_pipeline = false ∧
      is_background ex_fg_pipeline = false ∧
      (∀ m, m < ex_fg_stages.length → ex_env_running.fork m ≠ 0) ∧
      stages_return ex_env_running ex_fg_stages 0 ∧
      ∃ s2 s3 s4,
        check_jobs_bg_status ex_env_running.waitpid_nohang (entry_state ex_shell_one_job)
          = .ok s2 ∧
        run_script_stages ex_env_running ex_fg_pipeline 0 s2 = .ok s3 ∧
        s3.pid_queue = (List.range ex_fg_stages.length).map ex_env_running.fork ∧
        (new_events s2 s3).filterMap fork_of
          = (List.range ex_fg_stages.length).map ex_env_running.fork ∧
        (∀ e ∈ new_events s2 s3, ∀ p b, e ≠ Event.waitpid p b) ∧
        run_script ex_env_running (some ex_fg_pipeline) ex_shell_one_job = .ok s4 ∧
        s4.trace = s3.trace ++
          ((List.range ex_fg_stages.length).map ex_env_running.fork).map
            (fun p => Event.waitpid p false) ∧
        (new_events ex_shell_one_job s4).filterMap blocking_wait_of
          = (List.range ex_fg_stages.length).map ex_env_running.fork ∧
        s4.pid_queue = [] ∧
        s4.job_q = s2.job_q ∧
        s4.job_number = ex_shell_one_job.job_number :=
  have h1 : queues_nonempty (table_at_entry ex_shell_one_job) := by
    intro j hj
    simp only [table_at_entry, ex_shell_one_job, if_true, List.mem_singleton] at hj
    subst hj
    simp
  have h2 : is_pipeline ex_fg_pipeline ex_fg_stages ex_eoc [] :=
    ⟨rfl, by decide, rfl⟩
  have h5 : ∀ m, m < ex_fg_stages.length → ex_env_running.fork m ≠ 0 := by
    intro m _
    show (20 : Int) + (m : Int) ≠ 0
    omega
  have h6 : stages_return ex_env_running ex_fg_stages 0 := by
    intro m holder _ c dir _ _
    rfl
  ⟨h1, h2, rfl, rfl, h5, h6,
    run_script_foreground ex_env_running ex_fg_pipeline ex_fg_stages ex_eoc []
      ex_shell_one_job h1 h2 rfl rfl h5 h6⟩

/-- C3, as stated, fails. `exit &` is a sequence of one stage flagged background:
`run_script` adds no record, prints no notice and keeps the counter. In
`cd deep &`, when `getcwd(NULL, 100)` answers `NULL`, the shell is killed inside
`run_cd` before any record is made. And after 2147483646 launches of `a | b &`
the counter is `INT_MAX`, so the next launch leaves it at `-2147483648`. -/
theorem run_script_background_failures :
    (is_pipeline ex_exit_bg_sequence [ex_exit_bg] ex_eoc [] ∧
        is_background ex_exit_bg_sequence = true ∧
        run_script ex_env_done (some ex_exit_bg_sequence) initial_shell
          = .ok { job_q := [], pid_queue := [], job_number := 1, booted := true,
                  trace := [.end_main_loop] }) ∧
      (is_pipeline ex_cd_bg_pipeline [ex_cd { ex_flags with BACKGROUND := true }] ex_eoc [] ∧
        is_background ex_cd_bg_pipeline = true ∧
        is_exit_sequence ex_cd_bg_pipeline = false ∧
        ex_env_long_cwd.fork 0 = 20 ∧
        run_script ex_env_long_cwd (some ex_cd_bg_pipeline) initial_shell
          = .error (.crashed { job_q := [], pid_queue := [20], job_number := 1, booted := true,
                               trace := [.fork 20, .chdir "deep"] })) ∧
      (∃ s s1,
        run_session (List.replicate 2147483646 ex_call_last) initial_shell = .ok s ∧
        s.job_number = 2147483647 ∧
        run_script ex_call_last.env ex_call_last.holders s = .ok s1 ∧
        s1.job_number = -2147483648) := by
  refine ⟨⟨⟨rfl, by decide, rfl⟩, rfl, rfl⟩, ⟨⟨rfl, by decide, rfl⟩, rfl, rfl, rfl, rfl⟩, ?_⟩
  have hp : is_pipeline ex_bg_pipeline ex_bg_stages ex_eoc [] := ⟨rfl, by decide, rfl⟩
  have hf : ∀ m, m < ex_bg_stages.length → ex_call_last.env.fork m ≠ 0 := by
    intro m _
    show (10 : Int) + (m : Int) ≠ 0
    omega
  have hcd : stages_return ex_call_last.env ex_bg_stages 0 := by
    intro m holder _ c dir _ _
    rfl
  obtain ⟨s, hs⟩ := run_session_replicate ex_call_last ex_bg_pipeline ex_bg_stages ex_eoc [] 1
    rfl hp rfl rfl rfl hf hcd 2147483646
  have hl : launches (List.replicate 2147483646 ex_call_last) = 2147483646 :=
    launches_replicate ex_call_last rfl 2147483646
  obtain ⟨hnum, hI, _⟩ := run_session_ids _ s (by rw [hl]; norm_num) hs
  rw [hl] at hnum
  have hnum2 : s.job_number = 2147483647 := by rw [hnum]; norm_num
  have hrun := run_script_bg_eq ex_call_last.env ex_bg_pipeline ex_bg_stages ex_eoc [] s 1
    (table_at_entry_nonempty s hI) hp rfl rfl rfl hf hcd
  refine ⟨s, _, hs, hnum2, hrun, ?_⟩
  show wrap32 (s.job_number + 1) = -2147483648
  rw [hnum2]
  decide

/-- C3 (amended): for every background sequence of `n + 1` stages closed by the
end-of-commands marker, other than the exit sequence, run in the parent with every
parent-side `cd` returning, on a table the shell can hold and with the job id
counter below `INT_MAX`: `run_script` returns having issued no blocking wait; the
job table is the table the reaper pass left with one record appended at the back,
whose `job_id` is the counter's value before the call, whose pid queue is
`[p_0, ..., p_n]` in fork order, whose `pid` is `p_n` (the back of that queue) and
whose `cmd` is the current command line; after the reaper and builder actions it
emits one background-job-started notification carrying that `job_id`, `p_n` and
that command line, the only one of the call; and the counter has grown by
exactly 1. -/
theorem run_script_background (env : Env) (hs stages : List CommandHolder)
    (eoc : CommandHolder) (rest : List CommandHolder) (s : Shell) (n : Nat)
    (hne : queues_nonempty (table_at_entry s))
    (hp : is_pipeline hs stages eoc rest)
    (hx : is_exit_sequence hs = false)
    (hbg : is_background hs = true)
    (hn : stages.length = n + 1)
    (hf : ∀ m, m < stages.length → env.fork m ≠ 0)
    (hcd : stages_return env stages 0)
    (hlo : -2147483648 ≤ s.job_number) (hhi : s.job_number < 2147483647) :
    ∃ s2 s4,
      check_jobs_bg_status env.waitpid_nohang (entry_state s) = .ok s2 ∧
      run_script env (some hs) s = .ok s4 ∧
      s4.job_q = s2.job_q ++
        [{ job_id := s.job_number, pid_queue := (List.range (n + 1)).map env.fork,
           pid := env.fork n, cmd := env.command_string }] ∧
      ((List.range (n + 1)).map env.fork).getLast? = some (env.fork n) ∧
      s4.job_number = s.job_number + 1 ∧
      (new_events s s4).filterMap blocking_wait_of = [] ∧
      (∃ evs, s4.trace = s2.trace ++ evs ++
          job_started_notification s.job_number (env.fork n) env.command_string ∧
        (∀ e ∈ evs, is_builder_event e = true) ∧
        evs.filterMap fork_of = (List.range (n + 1)).map env.fork) ∧
      (new_events s s4).count (Event.printf "Background job started: ") = 1 := by
  have hlast := forked_pids_getLast env n 0
  rw [range_map_fork, Nat.zero_add] at hlast
  have hev : ∀ s4 : Shell,
      s4.trace = s.trace ++ reaper_events env.waitpid_nohang (table_at_entry s) ++
        stages_events env stages 0 ++
        job_started_notification s.job_number (env.fork n) env.command_string →
      new_events s s4 = reaper_events env.waitpid_nohang (table_at_entry s) ++
        (stages_events env stages 0 ++
          job_started_notification s.job_number (env.fork n) env.command_string) := by
    intro s4 h4
    exact new_events_of_trace s s4 _ (by rw [h4]; simp)
  refine ⟨_, _, reaper_pass_eq _ s hne,
    run_script_bg_eq env hs stages eoc rest s n hne hp hx hbg hn hf hcd, ?_, hlast, ?_, ?_, ?_,
    ?_⟩
  · simp [reaped_state, range_map_fork]
  · exact wrap32_succ s.job_number hlo hhi
  · rw [hev _ rfl]
    apply filterMap_eq_nil_of_forall
    intro e he
    rcases List.mem_append.1 he with he | he
    · exact (reaper_event_kind e (reaper_events_reaper _ _ e he)).1
    · rcases List.mem_append.1 he with he | he
      · exact (builder_event_kind e (stages_events_builder env stages 0 e he)).1
      · simp only [job_started_notification, List.mem_cons, List.mem_singleton,
          List.not_mem_nil, or_false] at he
        rcases he with rfl | rfl | rfl <;> rfl
  · refine ⟨stages_events env stages 0, by simp [reaped_state],
      stages_events_builder env stages 0, ?_⟩
    rw [stages_events_forks, hn, range_map_fork]
  · rw [hev _ rfl, List.count_append, List.count_append]
    have h1 : (reaper_events env.waitpid_nohang (table_at_entry s)).count
        (Event.printf "Background job started: ") = 0 :=
      List.count_eq_zero.2 (fun hmem =>
        (reaper_event_kind _ (reaper_events_reaper _ _ _ hmem)).2.2.2 rfl)
    have h2 : (stages_events env stages 0).count
        (Event.printf "Background job started: ") = 0 :=
      List.count_eq_zero.2 (fun hmem =>
        (builder_event_kind _ (stages_events_builder env stages 0 _ hmem)).2.2.2.2.1 rfl)
    rw [h1, h2]
    simp [job_started_notification, List.count_cons]

/-- C3 (amended) at a concrete call: `a | b &` as the first command of the shell. -/
theorem run_script_background_witness :
    queues_nonempty (table_at_entry initial_shell) ∧
      is_pipeline ex_bg_pipeline ex_bg_stages ex_eoc [] ∧
      is_exit_sequence ex_bg_pipeline = false ∧
      is_background ex_bg_pipeline = true ∧
      ex_bg_stages.length = 1 + 1 ∧
      (∀ m, m < ex_bg_stages.length → ex_env_done.fork m ≠ 0) ∧
      stages_return ex_env_done ex_bg_stages 0 ∧
      -2147483648 ≤ initial_shell.job_number ∧
      initial_shell.job_number < 2147483647 ∧
      ∃ s2 s4,
        check_jobs_bg_status ex_env_done.waitpid_nohang (entry_state initial_shell) = .ok s2 ∧
        run_script ex_env_done (some ex_bg_pipeline) initial_shell = .ok s4 ∧
        s4.job_q = s2.job_q ++
          [{ job_id := initial_shell.job_number,
             pid_queue := (List.range (1 + 1)).map ex_env_done.fork,
             pid := ex_env_done.fork 1, cmd := ex_env_done.command_string }] ∧
        ((List.range (1 + 1)).map ex_env_done.fork).getLast? = some (ex_env_done.fork 1) ∧
        s4.job_number = initial_shell.job_number + 1 ∧
        (new_events initial_shell s4).filterMap blocking_wait_of = [] ∧
        (∃ evs, s4.trace = s2.trace ++ evs ++
            job_started_notification initial_shell.job_number (ex_env_done.fork 1)
              ex_env_done.command_string ∧
          (∀ e ∈ evs, is_builder_event e = true) ∧
          evs.filterMap fork_of = (List.range (1 + 1)).map ex_env_done.fork) ∧
        (new_events initial_shell s4).count (Event.printf "Background job started: ") = 1 :=
  have h1 : queues_nonempty (table_at_entry initial_shell) := by
    intro j hj
    simp [table_at_entry, initial_shell] at hj
  have h2 : is_pipeline ex_bg_pipeline ex_bg_stages ex_eoc [] :=
    ⟨rfl, by decide, rfl⟩
  have h6 : ∀ m, m < ex_bg_stages.length → ex_env_done.fork m ≠ 0 := by
    intro m _
    show (10 : Int) + (m : Int) ≠ 0
    omega
  have h7 : stages_return ex_env_done ex_bg_stages 0 := by
    intro m holder _ c dir _ _
    rfl
  ⟨h1, h2, rfl, rfl, rfl, h6, h7, by decide, by decide,
    run_script_background ex_env_done ex_bg_pipeline ex_bg_stages ex_eoc []
      initial_shell 1 h1 h2 rfl rfl rfl h6 h7 (by decide) (by decide)⟩

/-- C6: for every non-`NULL` sequence run on a table whose jobs each hold a handle,
`run_script` returns having signalled shell termination if and only if the first
descriptor is Exit and the second is the end-of-commands marker; in that case it
runs the reaper pass first and then returns with `end_main_loop` as its only
further action: no fork, no new job record, the job id counter unchanged and the
pid queue of the invocation empty. -/
theorem run_script_exit (env : Env) (hs : List CommandHolder) (s : Shell)
    (hne : queues_nonempty (table_at_entry s)) :
    ((∃ s1, run_script env (some hs) s = .ok s1 ∧ Event.end_main_loop ∈ new_events s s1)
        ↔ is_exit_sequence hs = true) ∧
      (is_exit_sequence hs = true →
        ∃ s2 s4,
          check_jobs_bg_status env.waitpid_nohang (entry_state s) = .ok s2 ∧
          run_script env (some hs) s = .ok s4 ∧
          s4.trace = s2.trace ++ [Event.end_main_loop] ∧
          (new_events s s4).filterMap fork_of = [] ∧
          s4.job_q = s2.job_q ∧
          s4.job_number = s.job_number ∧
          s4.pid_queue = []) := by
  have hexit : is_exit_sequence hs = true →
      ∃ s2 s4,
        check_jobs_bg_status env.waitpid_nohang (entry_state s) = .ok s2 ∧
        run_script env (some hs) s = .ok s4 ∧
        s4.trace = s2.trace ++ [Event.end_main_loop] ∧
        (new_events s s4).filterMap fork_of = [] ∧
        s4.job_q = s2.job_q ∧
        s4.job_number = s.job_number ∧
        s4.pid_queue = [] := by
    intro hx
    refine ⟨_, _, reaper_pass_eq _ s hne, run_script_exit_eq env hs s hne hx, rfl, ?_,
      rfl, rfl, rfl⟩
    rw [new_events_of_trace s _ _ (List.append_assoc _ _ _)]
    apply filterMap_eq_nil_of_forall
    intro e he
    rcases List.mem_append.1 he with he | he
    · exact (reaper_event_kind e (reaper_events_reaper _ _ e he)).2.1
    · simp only [List.mem_singleton] at he
      subst he
      rfl
  refine ⟨⟨?_, ?_⟩, hexit⟩
  · rintro ⟨s1, hrun, hmem⟩
    rcases run_script_inv env hs s s1 hne hrun with
      hx | ⟨hx, stages, eoc, rest, hp, hf, hcd, hb⟩
    · exact hx
    · exfalso
      have hnot_r : Event.end_main_loop ∉ reaper_events env.waitpid_nohang (table_at_entry s) :=
        fun hm => (reaper_event_kind _ (reaper_events_reaper _ _ _ hm)).2.2.1 rfl
      have hnot_b : Event.end_main_loop ∉ stages_events env stages 0 :=
        fun hm => (builder_event_kind _ (stages_events_builder env stages 0 _ hm)).2.2.2.1 rfl
      rcases hb with hbg | ⟨hbg, n, hn⟩
      · rw [run_script_fg_eq env hs stages eoc rest s hne hp hx hbg hf hcd] at hrun
        injection hrun with hrun
        subst hrun
        rw [new_events_of_trace s _
          (reaper_events env.waitpid_nohang (table_at_entry s) ++
            (stages_events env stages 0 ++
              (forked_pids env stages.length 0).map (fun p => Event.waitpid p false)))
          (by simp only [List.append_assoc])] at hmem
        simp only [List.mem_append, List.mem_map] at hmem
        rcases hmem with hm | hm | ⟨p, _, hm⟩
        · exact hnot_r hm
        · exact hnot_b hm
        · exact absurd hm (by simp)
      · rw [run_script_bg_eq env hs stages eoc rest s n hne hp hx hbg hn hf hcd] at hrun
        injection hrun with hrun
        subst hrun
        rw [new_events_of_trace s _
          (reaper_events env.waitpid_nohang (table_at_entry s) ++
            (stages_events env stages 0 ++
              job_started_notification s.job_number (env.fork n) env.command_string))
          (by simp only [List.append_assoc])] at hmem
        simp only [List.mem_append] at hmem
        rcases hmem with hm | hm | hm
        · exact hnot_r hm
        · exact hnot_b hm
        · simp [job_started_notification] at hm
  · intro hx
    refine ⟨_, run_script_exit_eq env hs s hne hx, ?_⟩
    rw [new_events_of_trace s _ _ (List.append_assoc _ _ _)]
    simp

/-- C6 at a concrete call: `exit` while job 1 is in the table. -/
theorem run_script_exit_witness :
    queues_nonempty (table_at_entry ex_shell_one_job) ∧
      is_exit_sequence ex_exit_sequence = true ∧
      ((∃ s1, run_script ex_env_running (some ex_exit_sequence) ex_shell_one_job = .ok s1 ∧
            Event.end_main_loop ∈ new_events ex_shell_one_job s1)
          ↔ is_exit_sequence ex_exit_sequence = true) ∧
      ∃ s2 s4,
        check_jobs_bg_status ex_env_running.waitpid_nohang (entry_state ex_shell_one_job)
          = .ok s2 ∧
        run_script ex_env_running (some ex_exit_sequence) ex_shell_one_job = .ok s4 ∧
        s4.trace = s2.trace ++ [Event.end_main_loop] ∧
        (new_events ex_shell_one_job s4).filterMap fork_of = [] ∧
        s4.job_q = s2.job_q ∧
        s4.job_number = ex_shell_one_job.job_number ∧
        s4.pid_queue = [] :=
  have h1 : queues_nonempty (table_at_entry ex_shell_one_job) := by
    intro j hj
    simp only [table_at_entry, ex_shell_one_job, if_true, List.mem_singleton] at hj
    subst hj
    simp
  ⟨h1, rfl, (run_script_exit ex_env_running ex_exit_sequence ex_shell_one_job h1).1,
    (run_script_exit ex_env_running ex_exit_sequence ex_shell_one_job h1).2 rfl⟩

/-- C4: from the initial shell state (counter 1, empty table), after every
returning sequence of `run_script` calls with fewer than `2^31 - 1` background
launches: the counter is the number of launches plus one; when the last call is a
background launch, the record it appended and the notification it printed carry
the number of launches so far as `job_id` (the k-th launch receives id k); and the
`job_id`s in the table are pairwise distinct, at least 1 and strictly below the
counter. -/
theorem job_ids_fresh (calls : List Call) (s : Shell)
    (hb : launches calls < 2147483647)
    (hrun : run_session calls initial_shell = .ok s) :
    s.job_number = (launches calls : Int) + 1 ∧
      (s.job_q.map (fun j => j.job_id)).Nodup ∧
      (∀ j ∈ s.job_q, 1 ≤ j.job_id ∧ j.job_id < s.job_number) ∧
      (∀ pre c, calls = pre ++ [c] → is_background_launch c = true →
        ∃ front pid tr,
          s.job_q = front ++ [{ job_id := (launches calls : Int), pid_queue := s.pid_queue,
                                pid := pid, cmd := c.env.command_string }] ∧
          s.trace = tr ++
            job_started_notification (launches calls : Int) pid c.env.command_string) := by
  obtain ⟨hnum, _, hsub⟩ := run_session_ids calls s hb hrun
  have hinj : Function.Injective (fun (k : Nat) => (k : Int) + 1) := by
    intro a b hab
    have hab2 : (a : Int) + 1 = (b : Int) + 1 := hab
    omega
  refine ⟨hnum, ((List.nodup_range _).map hinj).sublist hsub, ?_, ?_⟩
  · intro j hj
    have hmem := hsub.subset (List.mem_map_of_mem (fun j => j.job_id) hj)
    obtain ⟨k, hk, hkj⟩ := List.mem_map.1 hmem
    have hk2 := List.mem_range.1 hk
    have hkj2 : (k : Int) + 1 = j.job_id := hkj
    omega
  · intro pre c hcalls hl
    subst hcalls
    obtain ⟨sp, hpre, hc⟩ := run_session_snoc pre c initial_shell s hrun
    have hls := launches_snoc pre c
    rw [hl] at hls
    simp only [if_true] at hls
    obtain ⟨hnp, hI, _⟩ := run_session_ids pre sp (by omega) hpre
    obtain ⟨_, front, pid, tr, hq, _, htr⟩ := (run_script_ids c sp s hI hc).1 hl
    have hid : sp.job_number = ((launches (pre ++ [c]) : Nat) : Int) := by
      rw [hnp, hls]
      push_cast
      ring
    rw [hid] at hq htr
    exact ⟨front, pid, tr, hq, htr⟩

/-- C4 on a concrete session: `a | b &`, then `c | d`, then `a | b &` again; the
last call is the second background launch and receives id 2. -/
theorem job_ids_fresh_witness :
    launches ex_session < 2147483647 ∧
      run_session ex_session initial_shell = .ok ex_session_final ∧
      ex_session = ex_session_front ++ [ex_call_last] ∧
      is_background_launch ex_call_last = true ∧
      launches ex_session = 2 ∧
      ex_session_final.job_number = (launches ex_session : Int) + 1 ∧
      (ex_session_final.job_q.map (fun j => j.job_id)).Nodup ∧
      (∀ j ∈ ex_session_final.job_q,
        1 ≤ j.job_id ∧ j.job_id < ex_session_final.job_number) ∧
      (∃ front pid tr,
        ex_session_final.job_q
          = front ++ [{ job_id := (launches ex_session : Int),
                        pid_queue := ex_session_final.pid_queue,
                        pid := pid, cmd := ex_call_last.env.command_string }] ∧
        ex_session_final.trace = tr ++
          job_started_notification (launches ex_session : Int) pid
            ex_call_last.env.command_string) :=
  ⟨by decide, rfl, rfl, rfl, rfl,
    (job_ids_fresh ex_session ex_session_final (by decide) rfl).1,
    (job_ids_fresh ex_session ex_session_final (by decide) rfl).2.1,
    (job_ids_fresh ex_session ex_session_final (by decide) rfl).2.2.1,
    (job_ids_fresh ex_session ex_session_final (by decide) rfl).2.2.2
      ex_session_front ex_call_last rfl rfl⟩

/-- C10: from the initial shell state, along every sequence of `run_script` calls
in which each background-flagged sequence has at least one stage, and for every
wait oracle and fork result: no call, of any prefix of the session, ends in a
queue underflow (every peek or pop is applied to a non-empty queue), and after
each returning call every job record in the table has a non-empty pid queue. -/
theorem session_queues_nonempty (calls : List Call)
    (hst : ∀ c ∈ calls, ∀ hs, c.holders = some hs → background_has_stage hs) :
    ∀ pre post, calls = pre ++ post →
      run_session pre initial_shell ≠ .error (.fault .underflow) ∧
      ∀ s, run_session pre initial_shell = .ok s → ∀ j ∈ s.job_q, j.pid_queue ≠ [] := by
  intro pre post hcalls
  have h0 : queues_nonempty initial_shell.job_q := by
    intro j hj
    simp [initial_shell] at hj
  refine ⟨run_session_no_underflow pre initial_shell h0 ?_,
    fun s hs => run_session_preserves pre initial_shell s h0 hs⟩
  intro c hc
  exact hst c (by rw [hcalls]; exact List.mem_append_left _ hc)

/-- C10 on a concrete session: `a | b &`, then `c | d`, then `a | b &` again. -/
theorem session_queues_nonempty_witness :
    (∀ c ∈ ex_session, ∀ hs, c.holders = some hs → background_has_stage hs) ∧
      ∀ pre post, ex_session = pre ++ post →
        run_session pre initial_shell ≠ .error (.fault .underflow) ∧
        ∀ s, run_session pre initial_shell = .ok s → ∀ j ∈ s.job_q, j.pid_queue ≠ [] :=
  have h : ∀ c ∈ ex_session, ∀ hs, c.holders = some hs → background_has_stage hs := by
    intro c hc hs hh
    simp only [ex_session, ex_session_front, List.cons_append, List.nil_append, List.mem_cons,
      List.mem_singleton, List.not_mem_nil, or_false] at hc
    rcases hc with rfl | rfl | rfl <;>
      · simp only [ex_call_last, Option.some.injEq] at hh
        subst hh
        intro _
        decide
  ⟨h, session_queues_nonempty ex_session h⟩
end Quash
